import Mathlib

/-!
# github_inbox_tui: the API client and the view state machine

A shallow embedding of `internal/app` (github.go, commands.go, model.go, ui.go,
types.go). Go strings are Lean strings read as their sequence of runes (so the
strings are the valid UTF-8 ones), Go slices are lists, a Go `error` value is
`Option String` (the text of `Error()`, `none` for nil), a call that returns
`(value, error)` gives a `Result`, and a Go `int` is an `Int`. The comment
page arithmetic of the keys "n" and "p" wraps around at 64 bits as Go `int`
arithmetic does (`wrapInt`); the counters of the review tally, the window sizes
and the indices into the slices are kept exact. The network, the clock and the
widgets of the bubbles library are parameters of the functions that use them.

The first part holds the definitions, the second part the lemmas and theorems.
-/

namespace InboxTUI

/-! ## Part I: definitions -/

/-! ### The Go standard library functions the program calls -/

/-- Case tables of Go's `unicode` package for the runes above `MaxASCII`
(`unicode.To(LowerCase, r)` and `unicode.To(UpperCase, r)`). The tables are data
of the standard library; every statement below holds for any tables. -/
structure CaseTables where
  lower : Char → Char
  upper : Char → Char

/-- Tables that leave every rune above `MaxASCII` alone, for concrete runs. -/
def CaseTables.plain : CaseTables := ⟨id, id⟩

/-- Go `unicode.ToLower`: ASCII is handled in place, the rest goes to the table. -/
def unicode.ToLower (ct : CaseTables) (r : Char) : Char :=
  if r.toNat ≤ 0x7F then
    if 'A'.toNat ≤ r.toNat ∧ r.toNat ≤ 'Z'.toNat then Char.ofNat (r.toNat + ('a'.toNat - 'A'.toNat)) else r
  else ct.lower r

/-- Go `unicode.ToUpper`: ASCII is handled in place, the rest goes to the table. -/
def unicode.ToUpper (ct : CaseTables) (r : Char) : Char :=
  if r.toNat ≤ 0x7F then
    if 'a'.toNat ≤ r.toNat ∧ r.toNat ≤ 'z'.toNat then Char.ofNat (r.toNat - ('a'.toNat - 'A'.toNat)) else r
  else ct.upper r

/-- Go `unicode.IsSpace`: the Latin-1 spaces, and above Latin-1 the runes of the
`White_Space` table. -/
def unicode.IsSpace (r : Char) : Bool :=
  if r.toNat ≤ 0xFF then
    r.toNat = 0x09 ∨ r.toNat = 0x0A ∨ r.toNat = 0x0B ∨ r.toNat = 0x0C ∨ r.toNat = 0x0D
      ∨ r.toNat = 0x20 ∨ r.toNat = 0x85 ∨ r.toNat = 0xA0
  else
    r.toNat = 0x1680 ∨ (0x2000 ≤ r.toNat ∧ r.toNat ≤ 0x200A) ∨ r.toNat = 0x2028
      ∨ r.toNat = 0x2029 ∨ r.toNat = 0x202F ∨ r.toNat = 0x205F ∨ r.toNat = 0x3000

/-- Go `strings.ToLower`: `unicode.ToLower` on every rune. -/
def strings.ToLower (ct : CaseTables) (s : String) : String :=
  String.mk (s.data.map (unicode.ToLower ct))

/-- Go `strings.ToUpper`: `unicode.ToUpper` on every rune. -/
def strings.ToUpper (ct : CaseTables) (s : String) : String :=
  String.mk (s.data.map (unicode.ToUpper ct))

/-- Whether `sub` occurs in `s` as a contiguous run, scanning start positions
from the left. -/
def strings.containsRunes : List Char → List Char → Bool
  | [], sub => sub.isEmpty
  | c :: s, sub => sub.isPrefixOf (c :: s) || strings.containsRunes s sub

/-- Go `strings.Contains(s, substr)`. Go compares bytes; on valid UTF-8 a run
of bytes that spells `substr` is a run of its runes, and the other way round. -/
def strings.Contains (s substr : String) : Bool :=
  strings.containsRunes s.data substr.data

/-- The pieces of a rune sequence between the occurrences of `sep`. -/
def strings.splitRunes (sep : Char) : List Char → List (List Char)
  | [] => [[]]
  | c :: cs =>
    if c = sep then [] :: strings.splitRunes sep cs
    else
      match strings.splitRunes sep cs with
      | [] => [[c]]
      | p :: ps => (c :: p) :: ps

/-- Go `strings.Split(s, sep)` for a separator of one rune (the program only
splits at ","): `n` separators give `n + 1` pieces, the empty string gives one
empty piece. -/
def strings.Split (s : String) (sep : Char) : List String :=
  (strings.splitRunes sep s.data).map String.mk

/-- Go `strings.TrimSpace`: drops the leading and the trailing runes that
`unicode.IsSpace` accepts. -/
def strings.TrimSpace (s : String) : String :=
  String.mk ((s.data.dropWhile unicode.IsSpace).rdropWhile unicode.IsSpace)

/-- The fields of a rune sequence, left to right; `cur` holds the runes of the
field being read, last rune first. -/
def strings.fieldsRunes : List Char → List Char → List (List Char)
  | [], cur => if cur.isEmpty then [] else [cur.reverse]
  | c :: cs, cur =>
    if unicode.IsSpace c then
      if cur.isEmpty then strings.fieldsRunes cs [] else cur.reverse :: strings.fieldsRunes cs []
    else strings.fieldsRunes cs (c :: cur)

/-- Go `strings.Fields`: the maximal runs of runes that `unicode.IsSpace`
rejects. -/
def strings.Fields (s : String) : List String :=
  (strings.fieldsRunes s.data []).map String.mk

/-- Go `strings.Join(elems, sep)`. -/
def strings.Join (elems : List String) (sep : String) : String :=
  String.mk (sep.data.intercalate (elems.map String.data))

/-- Go `strings.HasPrefix(s, p)`. -/
def strings.HasPrefix (s p : String) : Bool :=
  p.data.isPrefixOf s.data

/-! ### types.go -/

/-- `filter` of types.go: a named saved search. -/
structure filter where
  Name : String
  Query : String
deriving DecidableEq

/-- `tab` of types.go. -/
structure tab where
  Name : String
  Kind : String
deriving DecidableEq

/-- `filters` of types.go. -/
def filters : List filter :=
  [ ⟨"Open", "is:open archived:false involves:@me"⟩,
    ⟨"Review requested", "review-requested:@me"⟩,
    ⟨"Assigned", "assignee:@me"⟩,
    ⟨"Mentions", "mentions:@me"⟩,
    ⟨"Authored", "author:@me"⟩ ]

/-- `tabs` of types.go. -/
def tabs : List tab := [⟨"PRs", "pr"⟩, ⟨"Issues", "issue"⟩]

/-- `issueItem` of types.go. -/
structure issueItem where
  TitleText : String
  Repo : String
  Number : Int
  URL : String
  Kind : String
deriving DecidableEq

/-- The Go zero value `issueItem{}`. -/
def issueItem.zero : issueItem := ⟨"", "", 0, "", ""⟩

/-- A `time.Time`, as the nanoseconds elapsed since the zero time. -/
abbrev Time := Int

/-- `issueComment` of types.go. -/
structure issueComment where
  Author : String
  Body : String
  Updated : Time
deriving DecidableEq

/-- `detail` of types.go. -/
structure detail where
  Title : String
  Body : String
  State : String
  Author : String
  Updated : Time
  Comments : Int
  URL : String
  Repo : String
  Number : Int
  Kind : String
  Labels : List String
  Assignees : List String
  Draft : Bool
  Mergeable : Option Bool
  Additions : Int
  Deletions : Int
  ChangedFiles : Int
  Commits : Int
  ReviewApprovals : Int
  ReviewChanges : Int
  ReviewComments : Int
  CommentList : List issueComment
  CommentPage : Int
  HasNextComments : Bool
  HasPrevComments : Bool
deriving DecidableEq

/-- The Go zero value `detail{}`. -/
def detail.zero : detail :=
  ⟨"", "", "", "", 0, 0, "", "", 0, "", [], [], false, none, 0, 0, 0, 0, 0, 0, 0, [], 0, false, false⟩

/-- `commentPageInfo` of types.go. -/
structure commentPageInfo where
  Page : Int
  HasNext : Bool
  HasPrev : Bool
deriving DecidableEq

/-! ### github.go -/

/-- The result of a call that returns `(value, error)`. -/
inductive Result (α : Type) where
  | ok (value : α)
  | err (message : String)
deriving DecidableEq

/-- The search endpoint as `fetchIssuesWithFallback` sees it: `fetchIssues` with
the context and token fixed, from the query to the decoded items or an error. -/
abbrev SearchFn := String → Result (List issueItem)

/-- The type-qualifier test at the head of `fetchIssuesWithFallback`
(github.go line 18), on the lower-cased query. -/
def hasTypeQualifier (ct : CaseTables) (query : String) : Bool :=
  let normalized := strings.ToLower ct query
  strings.Contains normalized "is:issue" || strings.Contains normalized "is:pr"
    || strings.Contains normalized "is:pull-request"

/-- The reading of "the query has an explicit type qualifier" by tokens: some
whitespace-separated token of the query is, ignoring case, "is:issue", "is:pr"
or "is:pull-request". This follows the words of the specification, not the
code. -/
def hasTypeToken (ct : CaseTables) (query : String) : Bool :=
  (strings.Fields query).any fun token =>
    strings.ToLower ct token = "is:issue" || strings.ToLower ct token = "is:pr"
      || strings.ToLower ct token = "is:pull-request"

/-- The first loop of the merge (github.go lines 33-36): every issue item is
appended and its URL recorded in `seen`. -/
def collectIssueItems (issueItems : List issueItem) : List issueItem × List String :=
  issueItems.foldl (fun acc item => (acc.1 ++ [item], item.URL :: acc.2)) ([], [])

/-- The second loop of the merge (github.go lines 37-42): a PR item whose URL is
in `seen` is skipped, the others are appended; `seen` is not extended. -/
def appendUnseen (combined : List issueItem) (seen : List String) (prItems : List issueItem) :
    List issueItem :=
  prItems.foldl (fun acc item => if item.URL ∈ seen then acc else acc ++ [item]) combined

/-- The merge of the two passes (github.go lines 31-44). -/
def combineItems (issueItems prItems : List issueItem) : List issueItem :=
  let r := collectIssueItems issueItems
  appendUnseen r.1 r.2 prItems

/-- `fetchIssuesWithFallback` of github.go. The first component is the list of
the queries sent to `fetchIssues`, in the order they were sent; the second is
the returned `(items, error)`. -/
def fetchIssuesWithFallback (ct : CaseTables) (fetchIssues : SearchFn) (query : String) :
    List String × Result (List issueItem) :=
  if hasTypeQualifier ct query then
    ([query], fetchIssues query)
  else
    match fetchIssues (query ++ " is:issue") with
    | .err e => ([query ++ " is:issue"], .err e)
    | .ok issueItems =>
      match fetchIssues (query ++ " is:pr") with
      | .err e => ([query ++ " is:issue", query ++ " is:pr"], .err e)
      | .ok prItems =>
        ([query ++ " is:issue", query ++ " is:pr"], .ok (combineItems issueItems prItems))

/-- The test of the switch in `applyTabQuery` (github.go lines 56-57): the
lower-cased token is one of the four type qualifiers. -/
def isTypeQualifierToken (ct : CaseTables) (token : String) : Bool :=
  strings.ToLower ct token = "is:pr" || strings.ToLower ct token = "is:issue"
    || strings.ToLower ct token = "is:pull-request"
    || strings.ToLower ct token = "is:pullrequest"

/-- The loop of `applyTabQuery` (github.go lines 53-62): the tokens that are no
type qualifier, appended one by one. -/
def dropTypeQualifiers (ct : CaseTables) (tokens : List String) : List String :=
  tokens.foldl (fun filtered token =>
    if isTypeQualifierToken ct token then filtered else filtered ++ [token]) []

/-- `applyTabQuery` of github.go. -/
def applyTabQuery (ct : CaseTables) (query kind : String) : String :=
  if strings.ToLower ct kind ≠ "pr" ∧ strings.ToLower ct kind ≠ "issue" then query
  else if strings.ToLower ct kind = "pr" then
    strings.Join (dropTypeQualifiers ct (strings.Fields query) ++ ["is:pr"]) " "
  else
    strings.Join (dropTypeQualifiers ct (strings.Fields query) ++ ["is:issue"]) " "

/-- The two loops of `fetchIssueDetail` over the decoded labels and assignees
(github.go lines 185-196): the names that are not empty, in their order. -/
def collectNames (names : List String) : List String :=
  names.foldl (fun acc name => if name ≠ "" then acc ++ [name] else acc) []

/-- One element of the payload `fetchPullRequestReviews` decodes. -/
structure reviewEntry where
  State : String
  Login : String
  SubmittedAt : Time
deriving DecidableEq

/-- `reviewSummary` of github.go. -/
structure reviewSummary where
  approvals : Int
  changesRequested : Int
  commented : Int
deriving DecidableEq

/-- Assignment `m[k] = v` on a Go map held as a list of entries with distinct
keys: an existing key keeps its place and takes the new value, a new key is
added. -/
def mapSet (m : List (String × String)) (k v : String) : List (String × String) :=
  match m with
  | [] => [(k, v)]
  | (k0, v0) :: rest => if k0 = k then (k0, v) :: rest else (k0, v0) :: mapSet rest k v

/-- The first loop of `fetchPullRequestReviews` (github.go lines 332-339). -/
def latestByUser (payload : List reviewEntry) : List (String × String) :=
  payload.foldl (fun m r => if r.Login = "" then m else mapSet m r.Login r.State) []

/-- The body of the second loop of `fetchPullRequestReviews` (lines 343-350). -/
def countState (ct : CaseTables) (summary : reviewSummary) (state : String) : reviewSummary :=
  let s := strings.ToUpper ct state
  if s = "APPROVED" then { summary with approvals := summary.approvals + 1 }
  else if s = "CHANGES_REQUESTED" then
    { summary with changesRequested := summary.changesRequested + 1 }
  else if s = "COMMENTED" then { summary with commented := summary.commented + 1 }
  else summary

/-- The second loop of `fetchPullRequestReviews` over the entries of the map, in
the order `entries` lists them (Go leaves the order open). -/
def summarize (ct : CaseTables) (entries : List (String × String)) : reviewSummary :=
  entries.foldl (fun summary e => countState ct summary e.2) ⟨0, 0, 0⟩

/-- The tally `fetchPullRequestReviews` computes from a decoded payload
(github.go lines 332-353). -/
def reviewTally (ct : CaseTables) (payload : List reviewEntry) : reviewSummary :=
  summarize ct (latestByUser payload)

/-- `fetchPullRequestReviews` of github.go, from the outcome of the request and
of the decoding (the payload, or the error of the transport, the status or the
decoder). -/
def fetchPullRequestReviews (ct : CaseTables) (response : Result (List reviewEntry)) :
    Result reviewSummary :=
  match response with
  | .err e => .err e
  | .ok payload => .ok (reviewTally ct payload)

/-- The last review of `login` in the order of the payload. -/
def lastReview (payload : List reviewEntry) (login : String) : Option reviewEntry :=
  (payload.filter (fun r => r.Login = login)).getLast?

/-- One step of the search for the most recent review of `login`: a review of
`login` replaces the best one so far unless it was submitted strictly earlier. -/
def pickMostRecent (login : String) (best : Option reviewEntry) (r : reviewEntry) :
    Option reviewEntry :=
  if r.Login = login then
    match best with
    | none => some r
    | some b => if b.SubmittedAt ≤ r.SubmittedAt then some r else some b
  else best

/-- The review of `login` with the greatest submitted-at timestamp (of several
with that timestamp, the one that comes last in the payload). This follows the
words of the specification, "most recent submission", not the code. -/
def mostRecentReview (payload : List reviewEntry) (login : String) : Option reviewEntry :=
  payload.foldl (pickMostRecent login) none

/-- The number of reviewers (distinct non-empty logins of the payload) whose
most recent review, by timestamp, has the given state, compared upper-cased as
the code compares it. This follows the words of the specification. -/
def countByMostRecent (ct : CaseTables) (payload : List reviewEntry) (state : String) : Int :=
  (((payload.map reviewEntry.Login).toFinset.filter fun login =>
      login ≠ "" ∧
        (mostRecentReview payload login).map (fun r => strings.ToUpper ct r.State)
          = some state).card : Nat)

/-- The tally by most recent submission, in the words of the specification. -/
def tallyByMostRecent (ct : CaseTables) (payload : List reviewEntry) : reviewSummary :=
  { approvals := countByMostRecent ct payload "APPROVED"
    changesRequested := countByMostRecent ct payload "CHANGES_REQUESTED"
    commented := countByMostRecent ct payload "COMMENTED" }

/-- The number of reviewers of a payload: its distinct non-empty logins. -/
def reviewerCount (payload : List reviewEntry) : Int :=
  (((payload.map reviewEntry.Login).toFinset.filter fun login => login ≠ "").card : Nat)

/-! ### ui.go -/

/-- `hasLinkRel` of ui.go. -/
def hasLinkRel (linkHeader rel : String) : Bool :=
  if linkHeader = "" then false
  else (strings.Split linkHeader ',').any (fun part => strings.Contains part ("rel=\"" ++ rel ++ "\""))

/-- The page information `fetchIssueComments` builds from the requested page and
the `Link` header of the response (github.go lines 406-410); an absent header
reads as the empty string. -/
def pageInfoOf (page : Int) (linkHeader : String) : commentPageInfo :=
  { Page := page
    HasNext := hasLinkRel linkHeader "next"
    HasPrev := hasLinkRel linkHeader "prev" }

/-- `max` of ui.go. -/
def max (a b : Int) : Int := if a > b then a else b

/-- `actionProgress` of ui.go. -/
def actionProgress (targetState : String) : String :=
  if targetState = "closed" then "Closing..." else "Reopening..."

/-- `actionLabel` of ui.go. -/
def actionLabel (targetState : String) : String :=
  if targetState = "closed" then "Close" else "Reopen"

/-- The binary logarithm of `n`, rounded down, by halving at most `fuel` times. -/
def log2Fuel : Nat → Nat → Nat
  | 0, _ => 0
  | fuel + 1, n => if n < 2 then 0 else log2Fuel fuel (n / 2) + 1

/-- The binary logarithm of `n`, rounded down (0 for 0): `n` halvings are
always enough. -/
def floorLog2 (n : Nat) : Nat := log2Fuel n n

/-- A positive fraction `num / den` rounded to the nearest float64, ties to
even, given back as a fraction (the magnitudes met here are far from the
subnormal and the overflow range). -/
def roundFloat64 (num den : Nat) : Nat × Nat :=
  if num = 0 ∨ den = 0 then (0, 1)
  else
    let e0 : Int := (floorLog2 num : Int) - (floorLog2 den : Int) - 52
    let q0 : Nat := if 0 ≤ e0 then num / (den * 2 ^ e0.toNat) else num * 2 ^ (-e0).toNat / den
    let e : Int := if q0 < 2 ^ 52 then e0 - 1 else e0
    let n : Nat := if 0 ≤ e then num else num * 2 ^ (-e).toNat
    let d : Nat := if 0 ≤ e then den * 2 ^ e.toNat else den
    let q := n / d
    let r := n % d
    let m := if 2 * r < d then q else if d < 2 * r then q + 1 else if q % 2 = 0 then q else q + 1
    if 0 ≤ e then (m * 2 ^ e.toNat, 1) else (m, 2 ^ (-e).toNat)

/-- Go `time.Minute` in nanoseconds. -/
def Minute : Int := 60 * 1000000000

/-- Go `time.Hour` in nanoseconds. -/
def Hour : Int := 60 * Minute

/-- Go `Duration.Minutes` then the conversion `int(...)`, for `d ≥ 0`:
`float64(d / Minute) + float64(d % Minute) / (60 * 1e9)`, truncated. -/
def minutesInt (d : Nat) : Nat :=
  let frac := roundFloat64 (d % Minute.toNat) Minute.toNat
  let sum := roundFloat64 (d / Minute.toNat * frac.2 + frac.1) frac.2
  sum.1 / sum.2

/-- Go `Duration.Hours` for `d ≥ 0`, as a fraction:
`float64(d / Hour) + float64(d % Hour) / (60 * 60 * 1e9)`. -/
def hoursFloat (d : Nat) : Nat × Nat :=
  let frac := roundFloat64 (d % Hour.toNat) Hour.toNat
  roundFloat64 (d / Hour.toNat * frac.2 + frac.1) frac.2

/-- Go `time.Since(t)` read at clock value `now`: the difference, saturated to
the range of a `Duration` (int64 nanoseconds). -/
def timeSince (now t : Time) : Int :=
  if now - t > 2 ^ 63 - 1 then 2 ^ 63 - 1
  else if now - t < -(2 ^ 63) then -(2 ^ 63)
  else now - t

/-- `humanizeSince` of ui.go, with `now` the clock value `time.Since` reads. -/
def humanizeSince (now t : Time) : String :=
  if t = 0 then "just now"
  else
    let d := timeSince now t
    if d < Minute then "just now"
    else if d < Hour then toString (minutesInt d.toNat) ++ "m ago"
    else if d < 24 * Hour then
      toString ((hoursFloat d.toNat).1 / (hoursFloat d.toNat).2) ++ "h ago"
    else
      let days := roundFloat64 (hoursFloat d.toNat).1 ((hoursFloat d.toNat).2 * 24)
      toString (days.1 / days.2) ++ "d ago"

/-! ### commands.go: the commands `Update` hands to the runtime -/

/-- A `tea.Cmd` as `Update` builds it: the command constructors of commands.go
with their arguments, `tea.Quit`, `tea.Batch`, and the commands the widgets of
the bubbles library return. -/
inductive Cmd where
  | nil
  | Quit
  | fetchCmd (f : filter) (kind : String)
  | fetchDetailCmd (item : issueItem) (commentPage : Int)
  | postCommentCmd (item : issueItem) (body : String)
  | updateIssueStateCmd (item : issueItem) (state : String)
  | openURLCmd (target : String)
  | Batch (first second : Cmd)
  | widget (id : Nat)
deriving DecidableEq

/-- A `tea.Msg` as `Update` reads it. A key press carries its `String()`. -/
inductive Msg where
  | WindowSizeMsg (Width Height : Int)
  | KeyMsg (key : String)
  | fetchResult (items : List issueItem) (err : Option String)
  | detailResult (item : detail) (err : Option String)
  | commentResult (err : Option String)
  | stateResult (state : String) (err : Option String)
  | TickMsg (id : Nat)
  | other (id : Nat)
deriving DecidableEq

/-- `fetchCmd(f, kind)()` of commands.go (lines 18-32): the function the runtime
runs for the command. `token` is the value of GITHUB_TOKEN and
`fetchIssues token` the search endpoint under that token and the context of
the call. The first component lists the queries sent to `fetchIssues`, in the
order they were sent; the second is the `fetchResult` the function returns. -/
def fetchCmd (ct : CaseTables) (token : String) (fetchIssues : String → SearchFn) (f : filter)
    (kind : String) : List String × Msg :=
  if token = "" then ([], Msg.fetchResult [] (some "GITHUB_TOKEN is required"))
  else
    let query := applyTabQuery ct f.Query kind
    match fetchIssuesWithFallback ct (fetchIssues token) query with
    | (sent, Result.ok items) => (sent, Msg.fetchResult items none)
    | (sent, Result.err e) => (sent, Msg.fetchResult [] (some e))

/-- The widgets of the bubbles library (`list.Model`, `textarea.Model`,
`spinner.Model`) and the lipgloss styles, with the methods `model` calls. The
library is not part of the program: its types and methods are parameters. A
command that a widget returns is opaque to the program; it is a number here and
reaches the runtime as `Cmd.widget`. -/
structure Widgets where
  ListModel : Type
  TextArea : Type
  Spinner : Type
  Styles : Type
  SetSize : ListModel → Int → Int → ListModel
  CursorDown : ListModel → ListModel
  CursorUp : ListModel → ListModel
  SelectedItem : ListModel → Option issueItem
  SetItems : ListModel → List issueItem → ListModel
  Items : ListModel → List issueItem
  listUpdate : ListModel → Msg → ListModel × Nat
  textareaNew : TextArea
  SetWidth : TextArea → Int → TextArea
  SetHeight : TextArea → Int → TextArea
  Blur : TextArea → TextArea
  Focus : TextArea → TextArea
  SetValue : TextArea → String → TextArea
  Value : TextArea → String
  textareaUpdate : TextArea → Msg → TextArea × Nat
  spinnerNew : Spinner
  spinnerTick : Nat
  spinnerUpdate : Spinner → Msg → Spinner × Nat

/-- A plain instance of the widgets for concrete runs: the list is its items
and a cursor, the text area its value and focus. -/
def Widgets.simple : Widgets where
  ListModel := List issueItem × Nat
  TextArea := String × Bool
  Spinner := Nat
  Styles := Unit
  SetSize := fun l _ _ => l
  CursorDown := fun l => if l.2 + 1 < l.1.length then (l.1, l.2 + 1) else l
  CursorUp := fun l => (l.1, l.2 - 1)
  SelectedItem := fun l => l.1.get? l.2
  SetItems := fun l items => (items, if l.2 < items.length then l.2 else items.length - 1)
  Items := fun l => l.1
  listUpdate := fun l _ => (l, 0)
  textareaNew := ("", false)
  SetWidth := fun t _ => t
  SetHeight := fun t _ => t
  Blur := fun t => (t.1, false)
  Focus := fun t => (t.1, true)
  SetValue := fun t v => (v, t.2)
  Value := fun t => t.1
  textareaUpdate := fun t _ => (t, 0)
  spinnerNew := 0
  spinnerTick := 1
  spinnerUpdate := fun s _ => (s + 1, 1)

/-! ### model.go -/

/-- `model` of model.go. -/
structure model (W : Widgets) where
  list : W.ListModel
  filters : List filter
  filterIndex : Int
  tabIndex : Int
  status : String
  lastUpdated : Time
  loading : Bool
  err : Option String
  width : Int
  height : Int
  tokenMissing : Bool
  showDetail : Bool
  detailLoading : Bool
  detailErr : Option String
  detailItem : detail
  spinner : W.Spinner
  textarea : W.TextArea
  commentMode : Bool
  confirmMode : Bool
  actionLoading : Bool
  actionItem : issueItem
  confirmTargetState : String
  statusOverride : Bool
  commentPage : Int
  styles : W.Styles

/-- The result of Go `int` arithmetic from the exact result: the sum or
difference wraps around in two's complement at 64 bits. -/
def wrapInt (x : Int) : Int :=
  (x + 9223372036854775808) % 18446744073709551616 - 9223372036854775808

/-- A Go index expression `s[i]`: `none` is the run-time panic of an index out
of range. -/
def index {α : Type} (s : List α) (i : Int) : Option α :=
  if i < 0 then none else s.get? i.toNat

/-- The Go expression `(i + 1) % n` on ints: `none` is the panic of a division
by zero, the remainder has the sign of the dividend. -/
def nextIndex (i n : Int) : Option Int :=
  if n = 0 then none else some (Int.tmod (i + 1) n)

/-- `newModel` of model.go. -/
def newModel (W : Widgets) (l : W.ListModel) (styles : W.Styles) : model W where
  list := l
  filters := filters
  filterIndex := 0
  tabIndex := 0
  status := "Loading…"
  lastUpdated := 0
  loading := true
  err := none
  width := 0
  height := 0
  tokenMissing := false
  showDetail := false
  detailLoading := false
  detailErr := none
  detailItem := detail.zero
  spinner := W.spinnerNew
  textarea := W.SetHeight (W.SetWidth W.textareaNew 80) 10
  commentMode := false
  confirmMode := false
  actionLoading := false
  actionItem := issueItem.zero
  confirmTargetState := ""
  statusOverride := false
  commentPage := 1
  styles := styles

/-- `model.Init` of model.go. -/
def Init (W : Widgets) (m : model W) : Option Cmd := do
  let f ← index m.filters m.filterIndex
  let t ← index tabs m.tabIndex
  pure (Cmd.Batch (Cmd.fetchCmd f t.Kind) (Cmd.widget W.spinnerTick))

/-- The end of `Update` (model.go lines 319-321): the message goes to the list. -/
def updateList (W : Widgets) (m : model W) (msg : Msg) : Option (model W × Cmd) :=
  some ({ m with list := (W.listUpdate m.list msg).1 }, Cmd.widget (W.listUpdate m.list msg).2)

/-- The item the detail view shows, as the `issueItem` that the keys "c" and
"x" build from `m.detailItem` (model.go lines 174-180 and 215-221). -/
def detailAsItem (d : detail) : issueItem :=
  { TitleText := d.Title, Repo := d.Repo, Number := d.Number, URL := d.URL, Kind := d.Kind }

/-- `Update` on a key press in compose mode (model.go lines 83-108). -/
def updateCompose (W : Widgets) (m : model W) (key : String) : Option (model W × Cmd) :=
  if key = "esc" then
    some ({ m with commentMode := false, textarea := W.SetValue (W.Blur m.textarea) "" }, Cmd.nil)
  else if key = "ctrl+g" then
    if strings.TrimSpace (W.Value m.textarea) = "" then
      some ({ m with status := "Comment is empty", statusOverride := true }, Cmd.nil)
    else
      some ({ m with
              commentMode := false
              textarea := W.SetValue (W.Blur m.textarea) ""
              actionLoading := true
              status := "Sending comment to " ++ m.actionItem.Repo ++ "#"
                ++ toString m.actionItem.Number ++ "..."
              statusOverride := true },
            Cmd.postCommentCmd m.actionItem (strings.TrimSpace (W.Value m.textarea)))
  else
    some ({ m with textarea := (W.textareaUpdate m.textarea (Msg.KeyMsg key)).1 },
          Cmd.widget (W.textareaUpdate m.textarea (Msg.KeyMsg key)).2)

/-- `Update` on a key press in confirm mode (model.go lines 109-121). -/
def updateConfirm (W : Widgets) (m : model W) (key : String) : Option (model W × Cmd) :=
  if key = "y" then
    some ({ m with
            confirmMode := false
            actionLoading := true
            status := actionProgress m.confirmTargetState },
          Cmd.updateIssueStateCmd m.actionItem m.confirmTargetState)
  else if key = "n" ∨ key = "esc" then
    some ({ m with confirmMode := false }, Cmd.nil)
  else some (m, Cmd.nil)

/-- The list search `fetchCmd(m.filters[m.filterIndex], tabs[m.tabIndex].Kind)`. -/
def activeFetchCmd (W : Widgets) (m : model W) : Option Cmd := do
  let f ← index m.filters m.filterIndex
  let t ← index tabs m.tabIndex
  pure (Cmd.fetchCmd f t.Kind)

/-- The case "esc" of `Update` (model.go lines 125-130): in the list view the
switch is left without a return and the key goes on to the list. -/
def keyEsc (W : Widgets) (m : model W) : Option (model W × Cmd) :=
  if m.showDetail then some ({ m with showDetail := false, detailErr := none }, Cmd.nil)
  else updateList W m (Msg.KeyMsg "esc")

/-- The case "j", "down" of `Update` (model.go lines 131-135). -/
def keyDown (W : Widgets) (m : model W) : Option (model W × Cmd) :=
  if !m.showDetail then some ({ m with list := W.CursorDown m.list }, Cmd.nil)
  else some (m, Cmd.nil)

/-- The case "k", "up" of `Update` (model.go lines 136-140). -/
def keyUp (W : Widgets) (m : model W) : Option (model W × Cmd) :=
  if !m.showDetail then some ({ m with list := W.CursorUp m.list }, Cmd.nil)
  else some (m, Cmd.nil)

/-- The case "r" of `Update` (model.go lines 141-152). -/
def keyRefresh (W : Widgets) (m : model W) : Option (model W × Cmd) :=
  if m.showDetail then
    match W.SelectedItem m.list with
    | some item =>
      some ({ m with detailLoading := true, detailErr := none },
            Cmd.fetchDetailCmd item m.commentPage)
    | none => some (m, Cmd.nil)
  else
    (activeFetchCmd W m).map
      (fun c => ({ m with loading := true, status := "Refreshing..." }, c))

/-- The case "f" of `Update` (model.go lines 153-161). -/
def keyFilter (W : Widgets) (m : model W) : Option (model W × Cmd) :=
  if !m.showDetail then
    (nextIndex m.filterIndex m.filters.length).bind fun i =>
      (activeFetchCmd W
          { m with filterIndex := i, loading := true, status := "Loading...",
                   list := W.SetItems m.list [] }).map
        fun c =>
          ({ m with filterIndex := i, loading := true, status := "Loading...",
                    list := W.SetItems m.list [] }, c)
  else some (m, Cmd.nil)

/-- The case "tab" of `Update` (model.go lines 162-170). -/
def keyTab (W : Widgets) (m : model W) : Option (model W × Cmd) :=
  if !m.showDetail then
    (nextIndex m.tabIndex tabs.length).bind fun i =>
      (activeFetchCmd W
          { m with tabIndex := i, loading := true, status := "Loading...",
                   list := W.SetItems m.list [] }).map
        fun c =>
          ({ m with tabIndex := i, loading := true, status := "Loading...",
                    list := W.SetItems m.list [] }, c)
  else some (m, Cmd.nil)

/-- The case "c" of `Update` (model.go lines 171-192). -/
def keyComment (W : Widgets) (m : model W) : Option (model W × Cmd) :=
  if m.showDetail ∧ m.detailItem.Title ≠ "" then
    some ({ m with
            commentMode := true
            actionItem := detailAsItem m.detailItem
            textarea := W.SetValue (W.Focus m.textarea) "" }, Cmd.nil)
  else
    match W.SelectedItem m.list with
    | some item =>
      some ({ m with
              commentMode := true
              actionItem := item
              textarea := W.SetValue (W.Focus m.textarea) "" }, Cmd.nil)
    | none => some (m, Cmd.nil)

/-- The case "n" of `Update` (model.go lines 193-200); the sum is Go `int`
arithmetic. -/
def keyNext (W : Widgets) (m : model W) : Option (model W × Cmd) :=
  if m.showDetail ∧ m.detailItem.HasNextComments then
    some ({ m with
            commentPage := wrapInt (m.detailItem.CommentPage + 1)
            detailLoading := true
            detailErr := none },
          Cmd.fetchDetailCmd m.actionItem (wrapInt (m.detailItem.CommentPage + 1)))
  else some (m, Cmd.nil)

/-- The case "p" of `Update` (model.go lines 201-211); the difference is Go
`int` arithmetic. -/
def keyPrev (W : Widgets) (m : model W) : Option (model W × Cmd) :=
  if m.showDetail ∧ m.detailItem.HasPrevComments then
    some ({ m with
            commentPage :=
              if wrapInt (m.detailItem.CommentPage - 1) < 1 then 1
              else wrapInt (m.detailItem.CommentPage - 1)
            detailLoading := true
            detailErr := none },
          Cmd.fetchDetailCmd m.actionItem
            (if wrapInt (m.detailItem.CommentPage - 1) < 1 then 1
             else wrapInt (m.detailItem.CommentPage - 1)))
  else some (m, Cmd.nil)

/-- The case "x" of `Update` (model.go lines 212-235). -/
def keyClose (W : Widgets) (m : model W) : Option (model W × Cmd) :=
  if m.showDetail ∧ m.detailItem.Title ≠ "" then
    some ({ m with
            confirmMode := true
            actionItem := detailAsItem m.detailItem
            confirmTargetState := if m.detailItem.State = "closed" then "open" else "closed" },
          Cmd.nil)
  else
    match W.SelectedItem m.list with
    | some item =>
      some ({ m with confirmMode := true, actionItem := item, confirmTargetState := "closed" },
            Cmd.nil)
    | none => some (m, Cmd.nil)

/-- The case "o" of `Update` (model.go lines 236-240). -/
def keyOpen (W : Widgets) (m : model W) : Option (model W × Cmd) :=
  match W.SelectedItem m.list with
  | some item => some (m, Cmd.openURLCmd item.URL)
  | none => some (m, Cmd.nil)

/-- The case "enter" of `Update` (model.go lines 241-249). -/
def keyEnter (W : Widgets) (m : model W) : Option (model W × Cmd) :=
  match W.SelectedItem m.list with
  | some item =>
    some ({ m with showDetail := true, commentPage := 1, detailLoading := true, detailErr := none },
          Cmd.fetchDetailCmd item 1)
  | none => some (m, Cmd.nil)

/-- `Update` on a key press outside compose and confirm mode: the switch on
`msg.String()` (model.go lines 122-250); a key of no case goes on to the list. -/
def updateKey (W : Widgets) (m : model W) (key : String) : Option (model W × Cmd) :=
  if key = "ctrl+c" ∨ key = "q" then some (m, Cmd.Quit)
  else if key = "esc" then keyEsc W m
  else if key = "j" ∨ key = "down" then keyDown W m
  else if key = "k" ∨ key = "up" then keyUp W m
  else if key = "r" then keyRefresh W m
  else if key = "f" then keyFilter W m
  else if key = "tab" then keyTab W m
  else if key = "c" then keyComment W m
  else if key = "n" then keyNext W m
  else if key = "p" then keyPrev W m
  else if key = "x" then keyClose W m
  else if key = "o" then keyOpen W m
  else if key = "enter" then keyEnter W m
  else updateList W m (Msg.KeyMsg key)

/-- `model.Update` of model.go. `clock n` is the `n`-th reading of the wall
clock while the message is handled; `none` is a run-time panic (an index out of
range, a division by zero). -/
def Update (W : Widgets) (clock : Nat → Time) (m : model W) (msg : Msg) :
    Option (model W × Cmd) :=
  match msg with
  | Msg.WindowSizeMsg Width Height =>
    some ({ m with
            width := Width
            height := Height
            list := W.SetSize m.list (Width - 2) (Height - 7)
            textarea := W.SetHeight (W.SetWidth m.textarea (InboxTUI.max 20 (Width - 4)))
              (InboxTUI.max 6 (Height - 10)) }, Cmd.nil)
  | Msg.KeyMsg key =>
    if m.commentMode then updateCompose W m key
    else if m.confirmMode then updateConfirm W m key
    else updateKey W m key
  | Msg.fetchResult items err =>
    match err with
    | some e =>
      some ({ m with loading := false, err := some e, status := "Error: " ++ e,
                     statusOverride := true }, Cmd.nil)
    | none =>
      some ({ m with
              loading := false
              err := none
              list := W.SetItems m.list items
              lastUpdated := clock 0
              status := "Loaded " ++ toString (items.length : Int) ++ " items • updated "
                ++ humanizeSince (clock 1) (clock 0)
              statusOverride := false }, Cmd.nil)
  | Msg.detailResult item err =>
    match err with
    | some e =>
      some ({ m with detailLoading := false, detailErr := some e, status := "Error: " ++ e,
                     statusOverride := true }, Cmd.nil)
    | none =>
      some ({ m with detailLoading := false, detailErr := none, detailItem := item,
                     commentPage := item.CommentPage }, Cmd.nil)
  | Msg.commentResult err =>
    match err with
    | some e =>
      some ({ m with actionLoading := false, status := "Error: " ++ e, statusOverride := true },
            Cmd.nil)
    | none =>
      if m.showDetail then
        some ({ m with
                actionLoading := false
                status := "Comment posted to " ++ m.actionItem.Repo ++ "#"
                  ++ toString m.actionItem.Number
                statusOverride := true
                detailLoading := true },
              Cmd.fetchDetailCmd m.actionItem m.commentPage)
      else
        some ({ m with
                actionLoading := false
                status := "Comment posted to " ++ m.actionItem.Repo ++ "#"
                  ++ toString m.actionItem.Number
                statusOverride := true }, Cmd.nil)
  | Msg.stateResult state err =>
    match err with
    | some e =>
      some ({ m with actionLoading := false, status := "Error: " ++ e, statusOverride := true },
            Cmd.nil)
    | none =>
      if m.showDetail then
        (activeFetchCmd W m).map fun c =>
          ({ m with
             actionLoading := false
             status := if state = "closed" then "Closed" else "Reopened"
             statusOverride := true
             loading := true
             detailLoading := true },
           Cmd.Batch c (Cmd.fetchDetailCmd m.actionItem m.commentPage))
      else
        (activeFetchCmd W m).map fun c =>
          ({ m with
             actionLoading := false
             status := if state = "closed" then "Closed" else "Reopened"
             statusOverride := true
             loading := true }, c)
  | Msg.TickMsg id =>
    some ({ m with spinner := (W.spinnerUpdate m.spinner (Msg.TickMsg id)).1 },
          Cmd.widget (W.spinnerUpdate m.spinner (Msg.TickMsg id)).2)
  | Msg.other id => updateList W m (Msg.other id)

/-! ### model.go and ui.go: the view -/

/-- The fields of `uiStyles` (ui.go). -/
inductive StyleName where
  | Title | Filter | HelpKey | HelpText | Status | StatusErr | BodyText | MetaText
  | MutedText | AccentText | TreeLine | Panel | Confirm
deriving DecidableEq

/-- The painting done by the lipgloss and bubbles libraries, as `View` uses it:
`Render styles name s` is `styles.<name>.Render(s)`, `RenderWidth styles name w s`
is `styles.<name>.Copy().Width(w).Render(s)`, the three widget views, and
`lipgloss.JoinVertical(lipgloss.Left, ...)`. They are parameters. -/
structure Painter (W : Widgets) where
  Render : W.Styles → StyleName → String → String
  RenderWidth : W.Styles → StyleName → Int → String → String
  listView : W.ListModel → String
  textareaView : W.TextArea → String
  spinnerView : W.Spinner → String
  JoinVertical : List String → String

/-- A painter for concrete runs: styles add nothing, the widgets paint a fixed
text, and the parts are joined by line breaks. -/
def Painter.plain : Painter Widgets.simple where
  Render := fun _ _ s => s
  RenderWidth := fun _ _ _ s => s
  listView := fun l => strings.Join (l.1.map issueItem.TitleText) "\n"
  textareaView := fun t => t.1
  spinnerView := fun _ => "|"
  JoinVertical := fun parts => strings.Join parts "\n"

/-- `formatList` of ui.go. -/
def formatList (values : List String) : String :=
  if values.length = 0 then "none" else strings.Join values ", "

/-- `formatMergeable` of ui.go. -/
def formatMergeable (val : Option Bool) : String :=
  match val with
  | none => "unknown"
  | some true => "yes"
  | some false => "no"

/-- `prefixLines` of ui.go. -/
def prefixLines (text pre : String) : String :=
  strings.Join ((strings.Split text '\n').map fun line => pre ++ line) "\n"

/-- `renderTabs` of ui.go. -/
def renderTabs {W : Widgets} (P : Painter W) (tabList : List tab) (active : Int)
    (styles : W.Styles) : String :=
  strings.Join
    (tabList.enum.map fun it =>
      if (it.1 : Int) = active then P.Render styles StyleName.AccentText (" " ++ it.2.Name ++ " ")
      else P.Render styles StyleName.MutedText (" " ++ it.2.Name ++ " "))
    " "

/-- What the loop of `renderComments` writes for the comment number `i` (ui.go
lines 86-99); `clock i` is the value its `time.Since` reads. -/
def renderComment {W : Widgets} (P : Painter W) (clock : Nat → Time) (width : Int)
    (styles : W.Styles) (i : Nat) (c : issueComment) : String :=
  "\n" ++ P.Render styles StyleName.TreeLine "|- "
    ++ P.Render styles StyleName.MetaText c.Author
    ++ " "
    ++ P.Render styles StyleName.MutedText ("\u00e2\u20ac\u00a2 " ++ humanizeSince (clock i) c.Updated)
    ++ "\n"
    ++ prefixLines
        (P.RenderWidth styles StyleName.BodyText (width - 4)
          (if strings.TrimSpace c.Body = "" then "(empty)" else strings.TrimSpace c.Body))
        (P.Render styles StyleName.TreeLine "|  ")

/-- `renderComments` of ui.go. -/
def renderComments {W : Widgets} (P : Painter W) (clock : Nat → Time)
    (comments : List issueComment) (page : Int) (hasNext hasPrev : Bool) (width : Int)
    (styles : W.Styles) : String :=
  if comments.length = 0 then
    P.Render styles StyleName.AccentText "Comments" ++ "\n  "
      ++ P.Render styles StyleName.MutedText "(no comments)"
  else
    P.Render styles StyleName.AccentText ("Comments (page " ++ toString page ++ ")")
      ++ String.join (comments.enum.map fun ic => renderComment P clock width styles ic.1 ic.2)
      ++ (if hasPrev || hasNext then
            "\n|"
              ++ (if hasPrev then P.Render styles StyleName.MutedText "  prev: p" else "")
              ++ (if hasNext then
                    (if hasPrev then "  " else "")
                      ++ P.Render styles StyleName.MutedText "next: n"
                  else "")
          else "")

/-- The metadata line `extra` of `detailView` (model.go lines 428-455): the PR
block for the kind "PR", the labels and assignees for the kind "Issue", nothing
for any other kind. -/
def detailExtra (d : detail) : String :=
  if d.Kind = "PR" then
    "state: " ++ (if d.Draft then "draft" else "ready")
      ++ " • mergeable: " ++ formatMergeable d.Mergeable
      ++ " • "
      ++ ("reviews: +" ++ toString d.ReviewApprovals ++ " / -" ++ toString d.ReviewChanges
          ++ " / " ++ toString d.ReviewComments)
      ++ " • +" ++ toString d.Additions ++ "/-" ++ toString d.Deletions
      ++ " • files " ++ toString d.ChangedFiles
      ++ " • commits " ++ toString d.Commits
  else if d.Kind = "Issue" then
    "labels: " ++ formatList d.Labels ++ " • assignees: " ++ formatList d.Assignees
  else ""

/-- `model.detailView` of model.go. `clock 1` is the value the `time.Since` of
the header reads, `clock (i + 2)` the one of the comment number `i`. -/
def detailView {W : Widgets} (P : Painter W) (clock : Nat → Time) (m : model W) : String :=
  if m.detailLoading then
    P.spinnerView m.spinner ++ " " ++ P.Render m.styles StyleName.Status "Loading details..."
  else
    match m.detailErr with
    | some e => P.Render m.styles StyleName.StatusErr ("Error loading details: " ++ e)
    | none =>
      if m.detailItem.Title = "" then P.Render m.styles StyleName.MutedText "No details loaded."
      else
        P.Render m.styles StyleName.AccentText m.detailItem.Title
          ++ "\n"
          ++ (P.Render m.styles StyleName.MetaText
                (m.detailItem.Repo ++ " • " ++ m.detailItem.Kind ++ " • #"
                  ++ toString m.detailItem.Number ++ " • " ++ m.detailItem.State ++ " • "
                  ++ toString m.detailItem.Comments ++ " comments • updated "
                  ++ humanizeSince (clock 1) m.detailItem.Updated)
              ++ (if detailExtra m.detailItem ≠ "" then
                    "\n" ++ P.Render m.styles StyleName.MutedText (detailExtra m.detailItem)
                  else ""))
          ++ "\n\n"
          ++ P.RenderWidth m.styles StyleName.BodyText (m.width - 2)
              (strings.TrimSpace m.detailItem.Body)
          ++ "\n\n"
          ++ renderComments P (fun i => clock (i + 2)) m.detailItem.CommentList
              m.detailItem.CommentPage m.detailItem.HasNextComments
              m.detailItem.HasPrevComments (m.width - 2) m.styles

/-- `model.commentView` of model.go. -/
def commentView {W : Widgets} (P : Painter W) (m : model W) : String :=
  P.Render m.styles StyleName.AccentText "New Comment"
    ++ "\n"
    ++ P.Render m.styles StyleName.MetaText
        (m.actionItem.Repo ++ " • #" ++ toString m.actionItem.Number)
    ++ "\n\n"
    ++ P.textareaView m.textarea

/-- `model.confirmView` of model.go. -/
def confirmView {W : Widgets} (P : Painter W) (ct : CaseTables) (m : model W) : String :=
  P.Render m.styles StyleName.Confirm
    (actionLabel m.confirmTargetState ++ " this " ++ strings.ToLower ct m.actionItem.Kind ++ "?"
      ++ "\n"
      ++ (m.actionItem.Repo ++ " • #" ++ toString m.actionItem.Number))

/-- One help line of `View`: the pairs of a key and its text, each painted and
joined by a blank, the pairs joined by two blanks (the `Sprintf` formats of
model.go lines 350-387). -/
def helpLine {W : Widgets} (P : Painter W) (styles : W.Styles)
    (pairs : List (String × String)) : String :=
  strings.Join
    (pairs.map fun kt =>
      P.Render styles StyleName.HelpKey kt.1 ++ " " ++ P.Render styles StyleName.HelpText kt.2)
    "  "

/-- The help line `View` chooses (model.go lines 348-387): each later test
overrides the earlier ones. -/
def viewHelp {W : Widgets} (P : Painter W) (m : model W) : String :=
  let help :=
    helpLine P m.styles
      [("↑/↓ j/k", "navigate"), ("enter", "details"), ("o", "open"), ("r", "refresh"),
        ("f", "filter"), ("tab", "switch"), ("c", "comment"), ("x", "close/reopen"),
        ("q", "quit")]
  let help :=
    if m.showDetail then
      helpLine P m.styles
        [("esc", "back"), ("o", "open"), ("r", "refresh"), ("c", "comment"),
          ("x", "close/reopen"), ("n/p", "comments"), ("q", "quit")]
    else help
  let help :=
    if m.commentMode then helpLine P m.styles [("ctrl+g", "send"), ("esc", "cancel")] else help
  if m.confirmMode then helpLine P m.styles [("y", "confirm"), ("n/esc", "cancel")] else help

/-- The body `View` chooses (model.go lines 334-346): each later test overrides
the earlier ones. -/
def viewBody {W : Widgets} (P : Painter W) (ct : CaseTables) (clock : Nat → Time)
    (m : model W) : String :=
  let body := P.listView m.list
  let body := if m.showDetail then detailView P clock m else body
  let body := if m.confirmMode then confirmView P ct m else body
  let body := if m.commentMode then commentView P m else body
  if m.loading && !m.showDetail && !m.confirmMode && !m.commentMode then
    P.spinnerView m.spinner ++ " " ++ P.Render m.styles StyleName.MutedText "Loading list..."
  else body

/-- The status line of `View` (model.go lines 388-397); `clock 0` is the value
the `time.Since` of the computed line reads. -/
def viewStatus {W : Widgets} (P : Painter W) (clock : Nat → Time) (m : model W) : String :=
  let status := P.Render m.styles StyleName.Status m.status
  let status :=
    if strings.HasPrefix m.status "Error:" then P.Render m.styles StyleName.StatusErr m.status
    else status
  let status :=
    if m.loading || m.detailLoading || m.actionLoading then
      P.spinnerView m.spinner ++ " " ++ status
    else status
  if !m.statusOverride && !(m.lastUpdated = 0) && !m.loading && m.err = none then
    P.Render m.styles StyleName.Status
      ("Loaded " ++ toString ((W.Items m.list).length : Int) ++ " items • updated "
        ++ humanizeSince (clock 0) m.lastUpdated)
  else status

/-- `model.View` of model.go; `none` is the panic of `m.filters[m.filterIndex]`. -/
def View {W : Widgets} (P : Painter W) (ct : CaseTables) (clock : Nat → Time) (m : model W) :
    Option String :=
  if m.width = 0 then some ""
  else
    (index m.filters m.filterIndex).map fun f =>
      P.JoinVertical
        [ P.Render m.styles StyleName.Title "GitHub Inbox" ++ "  ·  "
            ++ P.Render m.styles StyleName.Filter f.Name,
          renderTabs P tabs m.tabIndex m.styles,
          viewBody P ct clock m,
          viewHelp P m ++ "\n" ++ viewStatus P clock m ]

/-! ### Runs of the state machine -/

/-- The comment pages of the detail fetches a command holds. -/
def pagesOf : Cmd → List Int
  | Cmd.fetchDetailCmd _ commentPage => [commentPage]
  | Cmd.Batch first second => pagesOf first ++ pagesOf second
  | _ => []

/-- The list searches a command holds: the arguments of its `fetchCmd`s. -/
def searchesOf : Cmd → List (filter × String)
  | Cmd.fetchCmd f kind => [(f, kind)]
  | Cmd.Batch first second => searchesOf first ++ searchesOf second
  | _ => []

/-- The index expressions of a state are in range: the filters are those of
types.go and both indices point into their slices. -/
def IndexInv {W : Widgets} (m : model W) : Prop :=
  m.filters = filters ∧ 0 ≤ m.filterIndex ∧ m.filterIndex < 5 ∧ 0 ≤ m.tabIndex ∧ m.tabIndex < 2

/-- The two mode flags are not set together. -/
def ModeInv {W : Widgets} (m : model W) : Prop :=
  ¬ (m.commentMode = true ∧ m.confirmMode = true)

/-- What one step keeps of the modes: the two flags are not set together
afterwards, and while a mode flag is set `showDetail` stays as it is. -/
def ModeStep {W : Widgets} (m m1 : model W) : Prop :=
  ModeInv m1 ∧ ((m.commentMode = true ∨ m.confirmMode = true) → m1.showDetail = m.showDetail)

/-- The compose view is active: `Update` hands the keys to the compose case and
`View` paints `commentView`. This follows the states of the specification. -/
def composeActive {W : Widgets} (m : model W) : Bool := m.commentMode

/-- The confirm view is active: the keys go to the confirm case and `View`
paints `confirmView`. This follows the states of the specification. -/
def confirmActive {W : Widgets} (m : model W) : Bool := m.confirmMode

/-- The detail view is active: no mode flag is set and `showDetail` is. This
follows the states of the specification. -/
def detailActive {W : Widgets} (m : model W) : Bool :=
  m.showDetail && !m.commentMode && !m.confirmMode

/-- The list view is active: no mode flag is set and `showDetail` is not. This
follows the states of the specification. -/
def listActive {W : Widgets} (m : model W) : Bool :=
  !m.showDetail && !m.commentMode && !m.confirmMode

/-- The states the program reaches from `newModel`, with the comment pages of
all detail fetches issued so far. The runtime delivers any message, except that
a successful `detailResult` carries a comment page that a detail fetch asked
for (`fetchIssueDetail` copies the requested page into the result). -/
inductive Reach (W : Widgets) : model W → List Int → Prop where
  | init (l : W.ListModel) (styles : W.Styles) : Reach W (newModel W l styles) []
  | step {m : model W} {pages : List Int} (clock : Nat → Time) (msg : Msg) (m1 : model W)
      (c : Cmd) :
      Reach W m pages →
      (∀ item, msg = Msg.detailResult item none → item.CommentPage ∈ pages) →
      Update W clock m msg = some (m1, c) →
      Reach W m1 (pages ++ pagesOf c)

/-- The state after the messages `msgs`, one after the other, with the commands
issued on the way (the clock stands still at 0). -/
def run (W : Widgets) (m : model W) : List Msg → Option (model W × List Cmd)
  | [] => some (m, [])
  | msg :: rest =>
    match Update W (fun _ => 0) m msg with
    | none => none
    | some (m1, c) =>
      match run W m1 rest with
      | none => none
      | some (m2, cs) => some (m2, c :: cs)

/-- An item of a search result, for concrete runs. -/
def sampleItem : issueItem := ⟨"Fix the parser", "octo/repo", 7, "https://github.com/octo/repo/pull/7", "PR"⟩

/-- A second item, for concrete runs. -/
def otherItem : issueItem := ⟨"Update docs", "octo/docs", 3, "https://github.com/octo/docs/issues/3", "Issue"⟩

/-- The detail of `sampleItem` at comment page 1, with a next page. -/
def sampleDetail : detail :=
  { detail.zero with
    Title := "Fix the parser", State := "open", URL := "https://github.com/octo/repo/pull/7",
    Repo := "octo/repo", Number := 7, Kind := "PR", CommentPage := 1, HasNextComments := true }

/-- The initial model over the plain widgets. -/
def startModel : model Widgets.simple := newModel Widgets.simple ([], 0) ()

/-- The detail view of `sampleItem`, opened from the list with "enter" and
loaded: the state after the search result, the key and the detail result. -/
def detailViewModel : model Widgets.simple :=
  { startModel with
    list := ([sampleItem, otherItem], 0)
    status := "Loaded 2 items • updated just now"
    loading := false
    showDetail := true
    detailItem := sampleDetail }

/-- The messages of a run that opens the detail of `sampleItem`, goes back to
the list, moves to `otherItem` and opens it: the search result, "enter", the
detail result, "esc", "j", "enter". The detail of `otherItem` is then loading. -/
def secondDetailMsgs : List Msg :=
  [Msg.fetchResult [sampleItem, otherItem] none, Msg.KeyMsg "enter",
    Msg.detailResult sampleDetail none, Msg.KeyMsg "esc", Msg.KeyMsg "j", Msg.KeyMsg "enter"]

/-- A model in compose mode for `sampleItem` with the given input buffer. -/
def composeModel (buffer : String) : model Widgets.simple :=
  { startModel with
    list := ([sampleItem, otherItem], 0)
    loading := false
    commentMode := true
    actionItem := sampleItem
    textarea := (buffer, true) }

/-- The list view after a search result with two items. -/
def listViewModel : model Widgets.simple :=
  { startModel with
    list := ([sampleItem, otherItem], 0)
    status := "Loaded 2 items • updated just now"
    loading := false }

/-- The list view of `listViewModel` on a terminal 80 columns wide, the result
loaded at clock value 1. -/
def paintedListModel : model Widgets.simple :=
  { listViewModel with width := 80, height := 24, lastUpdated := 1 }

/-- The loaded detail view of a closed issue with the labels "bug" and "P1" and
no assignee. -/
def issueDetailModel : model Widgets.simple :=
  { detailViewModel with
    width := 80
    height := 24
    detailItem :=
      { detail.zero with
        Title := "Crash on start", State := "closed", URL := "https://github.com/octo/docs/issues/3"
        Repo := "octo/docs", Number := 3, Kind := "Issue"
        Labels := collectNames ["bug", "P1"], Assignees := collectNames []
        CommentPage := 1 } }

/-! ## Part II: lemmas and theorems -/

/-! ### The merge of the two search passes -/

theorem collectIssueItems_foldl (issueItems : List issueItem) (acc : List issueItem × List String) :
    issueItems.foldl (fun acc item => (acc.1 ++ [item], item.URL :: acc.2)) acc
      = (acc.1 ++ issueItems, (issueItems.map issueItem.URL).reverse ++ acc.2) := by
  induction issueItems generalizing acc with
  | nil => simp
  | cons x xs ih => simp [ih]

theorem collectIssueItems_eq (issueItems : List issueItem) :
    collectIssueItems issueItems = (issueItems, (issueItems.map issueItem.URL).reverse) := by
  simp [collectIssueItems, collectIssueItems_foldl]

theorem appendUnseen_eq (combined : List issueItem) (seen : List String)
    (prItems : List issueItem) :
    appendUnseen combined seen prItems
      = combined ++ prItems.filter (fun p => decide (p.URL ∉ seen)) := by
  unfold appendUnseen
  induction prItems generalizing combined with
  | nil => simp
  | cons x xs ih =>
    by_cases h : x.URL ∈ seen
    · simp [h, ih]
    · simp [h, ih]

theorem combineItems_eq (issueItems prItems : List issueItem) :
    combineItems issueItems prItems
      = issueItems
        ++ prItems.filter (fun p => decide (p.URL ∉ issueItems.map issueItem.URL)) := by
  simp [combineItems, collectIssueItems_eq, appendUnseen_eq]

/-- C1. On the two-pass branch of `fetchIssuesWithFallback`, when the
" is:issue" pass returns `I` and the " is:pr" pass returns `P`, the returned
list is `I` followed by the elements of `P` whose URL is the URL of no element
of `I`, each part in its order; so every issue result is kept, and every PR
result whose URL is not among the issue results is kept. -/
theorem C1_two_pass_merge (ct : CaseTables) (fetchIssues : SearchFn) (query : String)
    (I P : List issueItem)
    (hbranch : hasTypeQualifier ct query = false)
    (hI : fetchIssues (query ++ " is:issue") = Result.ok I)
    (hP : fetchIssues (query ++ " is:pr") = Result.ok P) :
    (fetchIssuesWithFallback ct fetchIssues query).2
        = Result.ok (I ++ P.filter (fun p => decide (p.URL ∉ I.map issueItem.URL)))
      ∧ (∀ i ∈ I, i ∈ I ++ P.filter (fun p => decide (p.URL ∉ I.map issueItem.URL)))
      ∧ (∀ p ∈ P, p.URL ∉ I.map issueItem.URL →
          p ∈ I ++ P.filter (fun p => decide (p.URL ∉ I.map issueItem.URL))) := by
  refine ⟨?_, ?_, ?_⟩
  · simp [fetchIssuesWithFallback, hbranch, hI, hP, combineItems_eq]
  · intro i hi
    exact List.mem_append_left _ hi
  · intro p hp hnot
    apply List.mem_append_right
    simp only [List.mem_filter, decide_eq_true_eq]
    exact ⟨hp, hnot⟩

/-- A run of C1: the query "label:bug" has no type qualifier, the issue pass
returns the items with URLs "u1", "u2", the PR pass those with "u2", "u3". -/
theorem C1_two_pass_merge_witness :
    (fetchIssuesWithFallback CaseTables.plain
        (fun q =>
          if q = "label:bug is:issue" then
            Result.ok [⟨"a", "o/r", 1, "u1", "Issue"⟩, ⟨"b", "o/r", 2, "u2", "PR"⟩]
          else Result.ok [⟨"b", "o/r", 2, "u2", "PR"⟩, ⟨"c", "o/r", 3, "u3", "PR"⟩])
        "label:bug").2
      = Result.ok [⟨"a", "o/r", 1, "u1", "Issue"⟩, ⟨"b", "o/r", 2, "u2", "PR"⟩,
          ⟨"c", "o/r", 3, "u3", "PR"⟩] :=
  (C1_two_pass_merge CaseTables.plain _ "label:bug"
    [⟨"a", "o/r", 1, "u1", "Issue"⟩, ⟨"b", "o/r", 2, "u2", "PR"⟩]
    [⟨"b", "o/r", 2, "u2", "PR"⟩, ⟨"c", "o/r", 3, "u3", "PR"⟩]
    (by decide) (by decide) (by decide)).1

theorem combineItems_nodup (I P : List issueItem)
    (hI : (I.map issueItem.URL).Nodup) (hP : (P.map issueItem.URL).Nodup) :
    ((combineItems I P).map issueItem.URL).Nodup := by
  rw [combineItems_eq, List.map_append]
  refine List.Nodup.append hI ?_ ?_
  · exact hP.sublist ((List.filter_sublist P).map issueItem.URL)
  · intro u hu hu2
    obtain ⟨p, hp, rfl⟩ := List.mem_map.1 hu2
    simp only [List.mem_filter, decide_eq_true_eq] at hp
    exact hp.2 hu

theorem combineItems_scenario_length (i : issueItem) (P : List issueItem)
    (hP : (P.map issueItem.URL).Nodup) (hlen : P.length = 3)
    (hi : i.URL ∈ P.map issueItem.URL) :
    (combineItems [i] P).length = 3 := by
  rw [combineItems_eq]
  match P, hlen with
  | [a, b, c], _ =>
    simp only [List.map_cons, List.map_nil, List.nodup_cons, List.mem_cons, List.mem_singleton,
      List.not_mem_nil, or_false, not_or, not_false_eq_true, List.nodup_nil, and_true] at hP hi
    obtain ⟨⟨hab, hac⟩, hbc⟩ := hP
    rcases hi with h | h | h
    · have hb : ¬ b.URL = a.URL := fun e => hab e.symm
      have hc : ¬ c.URL = a.URL := fun e => hac e.symm
      simp [h, hb, hc]
    · have hc : ¬ c.URL = b.URL := fun e => hbc e.symm
      simp [h, hab, hc]
    · simp [h, hac, hbc]

/-- C2, as the claim states it, fails: when the PR pass itself lists one URL
twice (here the issue pass is empty), both copies reach the merged list, since
the merge only drops PR items whose URL an issue item has. -/
theorem C2_duplicate_within_pass_counterexample :
    (fetchIssuesWithFallback CaseTables.plain
        (fun q =>
          if q = "label:bug is:pr" then
            Result.ok [⟨"a", "o/r", 1, "u1", "PR"⟩, ⟨"a", "o/r", 1, "u1", "PR"⟩]
          else Result.ok [])
        "label:bug").2
      = Result.ok [⟨"a", "o/r", 1, "u1", "PR"⟩, ⟨"a", "o/r", 1, "u1", "PR"⟩]
    ∧ ¬ (List.map issueItem.URL
          [(⟨"a", "o/r", 1, "u1", "PR"⟩ : issueItem), ⟨"a", "o/r", 1, "u1", "PR"⟩]).Nodup := by
  decide

/-- C2, amended. On the two-pass branch, when neither the issue pass nor the PR
pass lists a URL twice, no two items of the merged list have the same URL; and
when the issue pass returns one item and the PR pass three, one of them under
the URL of the issue item, the merged list has exactly 3 items. -/
theorem C2_merge_no_duplicate_urls (ct : CaseTables) (fetchIssues : SearchFn) (query : String)
    (I P : List issueItem)
    (hbranch : hasTypeQualifier ct query = false)
    (hI : fetchIssues (query ++ " is:issue") = Result.ok I)
    (hP : fetchIssues (query ++ " is:pr") = Result.ok P)
    (hIdistinct : (I.map issueItem.URL).Nodup)
    (hPdistinct : (P.map issueItem.URL).Nodup) :
    ∃ R, (fetchIssuesWithFallback ct fetchIssues query).2 = Result.ok R
      ∧ (R.map issueItem.URL).Nodup
      ∧ (∀ i, I = [i] → P.length = 3 → i.URL ∈ P.map issueItem.URL → R.length = 3) := by
  refine ⟨combineItems I P, ?_, combineItems_nodup I P hIdistinct hPdistinct, ?_⟩
  · simp [fetchIssuesWithFallback, hbranch, hI, hP]
  · intro i hi hlen hmem
    subst hi
    exact combineItems_scenario_length i P hPdistinct hlen hmem

/-- The scenario of C2: three PRs, the second also returned by the issue pass. -/
theorem C2_merge_no_duplicate_urls_witness :
    ∃ R, (fetchIssuesWithFallback CaseTables.plain
        (fun q =>
          if q = "label:bug is:issue" then Result.ok [⟨"b", "o/r", 2, "u2", "PR"⟩]
          else Result.ok [⟨"a", "o/r", 1, "u1", "PR"⟩, ⟨"b", "o/r", 2, "u2", "PR"⟩,
            ⟨"c", "o/r", 3, "u3", "PR"⟩])
        "label:bug").2 = Result.ok R
      ∧ (R.map issueItem.URL).Nodup
      ∧ (∀ i, [(⟨"b", "o/r", 2, "u2", "PR"⟩ : issueItem)] = [i] →
          [(⟨"a", "o/r", 1, "u1", "PR"⟩ : issueItem), ⟨"b", "o/r", 2, "u2", "PR"⟩,
            ⟨"c", "o/r", 3, "u3", "PR"⟩].length = 3 →
          i.URL ∈ List.map issueItem.URL [(⟨"a", "o/r", 1, "u1", "PR"⟩ : issueItem),
            ⟨"b", "o/r", 2, "u2", "PR"⟩, ⟨"c", "o/r", 3, "u3", "PR"⟩] → R.length = 3) :=
  C2_merge_no_duplicate_urls CaseTables.plain _ "label:bug"
    [⟨"b", "o/r", 2, "u2", "PR"⟩]
    [⟨"a", "o/r", 1, "u1", "PR"⟩, ⟨"b", "o/r", 2, "u2", "PR"⟩, ⟨"c", "o/r", 3, "u3", "PR"⟩]
    (by decide) (by decide) (by decide) (by decide) (by decide)

/-! ### The type-qualifier test -/

theorem containsRunes_iff (s sub : List Char) :
    strings.containsRunes s sub = true ↔ sub <:+: s := by
  induction s with
  | nil =>
    simp [strings.containsRunes, List.isEmpty_iff]
  | cons c s ih =>
    simp only [strings.containsRunes, Bool.or_eq_true, ih, List.isPrefixOf_iff_prefix,
      List.infix_cons_iff]

theorem Contains_iff (s substr : String) :
    strings.Contains s substr = true ↔ substr.data <:+: s.data := by
  simp [strings.Contains, containsRunes_iff]

theorem fieldsRunes_isInfix (s cur t : List Char) (ht : t ∈ strings.fieldsRunes s cur) :
    t <:+: cur.reverse ++ s := by
  induction s generalizing cur with
  | nil =>
    by_cases hc : cur = []
    · simp [strings.fieldsRunes, hc] at ht
    · simp [strings.fieldsRunes, hc] at ht
      subst ht
      simp
  | cons c cs ih =>
    by_cases hsp : unicode.IsSpace c = true
    · by_cases hc : cur = []
      · simp only [strings.fieldsRunes, hsp, hc, List.isEmpty_nil, if_true] at ht
        have := ih [] ht
        simp only [List.reverse_nil, List.nil_append] at this
        subst hc
        exact this.trans (List.infix_cons (List.infix_refl _))
      · have hne : cur.isEmpty = false := by
          cases cur with
          | nil => exact absurd rfl hc
          | cons _ _ => rfl
        simp only [strings.fieldsRunes, hsp, hne, if_true, Bool.false_eq_true, if_false,
          List.mem_cons] at ht
        rcases ht with ht | ht
        · subst ht
          exact (List.prefix_append _ _).isInfix
        · have := ih [] ht
          simp only [List.reverse_nil, List.nil_append] at this
          exact this.trans ((List.suffix_cons c cs).isInfix.trans
            (List.suffix_append _ _).isInfix)
    · simp only [strings.fieldsRunes, hsp] at ht
      have := ih (c :: cur) ht
      simpa using this

theorem Fields_isInfix (s t : String) (ht : t ∈ strings.Fields s) : t.data <:+: s.data := by
  simp only [strings.Fields, List.mem_map] at ht
  obtain ⟨r, hr, rfl⟩ := ht
  simpa using fieldsRunes_isInfix s.data [] r hr

theorem isInfix_map {α β : Type} (f : α → β) {l₁ l₂ : List α} (h : l₁ <:+: l₂) :
    l₁.map f <:+: l₂.map f := by
  obtain ⟨a, b, rfl⟩ := h
  exact ⟨a.map f, b.map f, by simp⟩

theorem Contains_ToLower_of_token (ct : CaseTables) (query token lit : String)
    (ht : token ∈ strings.Fields query) (hl : strings.ToLower ct token = lit) :
    strings.Contains (strings.ToLower ct query) lit = true := by
  rw [Contains_iff, ← hl]
  exact isInfix_map _ (Fields_isInfix query token ht)

theorem hasTypeQualifier_of_hasTypeToken (ct : CaseTables) (query : String)
    (h : hasTypeToken ct query = true) : hasTypeQualifier ct query = true := by
  simp only [hasTypeToken, List.any_eq_true, Bool.or_eq_true, decide_eq_true_eq] at h
  obtain ⟨token, hmem, hcase⟩ := h
  simp only [hasTypeQualifier, Bool.or_eq_true]
  rcases hcase with (h1 | h2) | h3
  · exact Or.inl (Or.inl (Contains_ToLower_of_token ct query token _ hmem h1))
  · exact Or.inl (Or.inr (Contains_ToLower_of_token ct query token _ hmem h2))
  · exact Or.inr (Contains_ToLower_of_token ct query token _ hmem h3)

/-- C3, as the claim states it, fails: the query "is:private" has no token that
is a type qualifier, yet for any case tables and any search endpoint
`fetchIssuesWithFallback` sends one search only, the query unchanged, because
the lower-cased query contains the text "is:pr". -/
theorem C3_substring_counterexample :
    (∀ ct : CaseTables, hasTypeToken ct "is:private" = false)
    ∧ (∀ (ct : CaseTables) (fetchIssues : SearchFn),
        (fetchIssuesWithFallback ct fetchIssues "is:private").1 = ["is:private"]) := by
  refine ⟨fun ct => rfl, fun ct fetchIssues => rfl⟩

/-- C3, amended: the test is on the text of the lower-cased query, not on its
tokens. For every query whose lower-cased text contains none of "is:issue",
"is:pr", "is:pull-request", `fetchIssuesWithFallback` sends exactly two
searches when the first succeeds, `query + " is:issue"` then
`query + " is:pr"` (and only the first when it fails); for every query whose
lower-cased text contains one of them it sends exactly one search, the query
unchanged, and returns its result; and every query with a token that is,
ignoring case, "is:issue", "is:pr" or "is:pull-request" is of the second kind. -/
theorem C3_searches_sent (ct : CaseTables) (fetchIssues : SearchFn) (query : String) :
    (hasTypeQualifier ct query = false →
        (∀ I, fetchIssues (query ++ " is:issue") = Result.ok I →
          (fetchIssuesWithFallback ct fetchIssues query).1
            = [query ++ " is:issue", query ++ " is:pr"])
        ∧ (∀ e, fetchIssues (query ++ " is:issue") = Result.err e →
          fetchIssuesWithFallback ct fetchIssues query
            = ([query ++ " is:issue"], Result.err e)))
    ∧ (hasTypeQualifier ct query = true →
        fetchIssuesWithFallback ct fetchIssues query = ([query], fetchIssues query))
    ∧ (hasTypeToken ct query = true → hasTypeQualifier ct query = true) := by
  refine ⟨fun hq => ⟨fun I hI => ?_, fun e he => ?_⟩, fun hq => ?_,
    hasTypeQualifier_of_hasTypeToken ct query⟩
  · cases hP : fetchIssues (query ++ " is:pr") <;>
      simp [fetchIssuesWithFallback, hq, hI, hP]
  · simp [fetchIssuesWithFallback, hq, he]
  · simp [fetchIssuesWithFallback, hq]

/-- Runs of C3: "label:bug" is sent twice with the qualifiers added,
"label:bug IS:PR" once as it is. -/
theorem C3_searches_sent_witness :
    (fetchIssuesWithFallback CaseTables.plain (fun _ => Result.ok []) "label:bug").1
        = ["label:bug is:issue", "label:bug is:pr"]
    ∧ fetchIssuesWithFallback CaseTables.plain (fun _ => Result.ok []) "label:bug IS:PR"
        = (["label:bug IS:PR"], Result.ok []) :=
  ⟨((C3_searches_sent CaseTables.plain (fun _ => Result.ok []) "label:bug").1 (by decide)).1 []
      rfl,
   (C3_searches_sent CaseTables.plain (fun _ => Result.ok []) "label:bug IS:PR").2.1
      ((C3_searches_sent CaseTables.plain (fun _ => Result.ok []) "label:bug IS:PR").2.2
        (by decide))⟩

/-! ### The review tally -/

theorem latestByUser_append (p : List reviewEntry) (r : reviewEntry) :
    latestByUser (p ++ [r])
      = if r.Login = "" then latestByUser p else mapSet (latestByUser p) r.Login r.State := by
  simp [latestByUser, List.foldl_append]

theorem lastReview_append (p : List reviewEntry) (r : reviewEntry) (u : String) :
    lastReview (p ++ [r]) u = if r.Login = u then some r else lastReview p u := by
  by_cases h : r.Login = u
  · simp [lastReview, List.filter_append, h, List.getLast?_append]
  · simp [lastReview, List.filter_append, h]

theorem mostRecentReview_append (p : List reviewEntry) (r : reviewEntry) (u : String) :
    mostRecentReview (p ++ [r]) u = pickMostRecent u (mostRecentReview p u) r := by
  simp [mostRecentReview, List.foldl_append]

theorem mem_mapSet (m : List (String × String)) (k v : String) (e : String × String)
    (hm : (m.map Prod.fst).Nodup) :
    e ∈ mapSet m k v ↔ (e ∈ m ∧ e.1 ≠ k) ∨ e = (k, v) := by
  induction m with
  | nil => simp [mapSet]
  | cons x rest ih =>
    obtain ⟨k0, v0⟩ := x
    simp only [List.map_cons, List.nodup_cons, List.mem_map, not_exists, not_and] at hm
    by_cases h : k0 = k
    · subst h
      simp only [mapSet, if_true, List.mem_cons]
      constructor
      · rintro (h | h)
        · exact Or.inr h
        · exact Or.inl ⟨Or.inr h, fun e1 => hm.1 e h e1⟩
      · rintro (⟨h | h, hne⟩ | h)
        · exact absurd (by rw [h]) hne
        · exact Or.inr h
        · exact Or.inl h
    · simp only [mapSet, h, if_false, List.mem_cons, ih hm.2]
      constructor
      · rintro (h1 | h1 | h1)
        · exact Or.inl ⟨Or.inl h1, by rw [h1]; exact h⟩
        · exact Or.inl ⟨Or.inr h1.1, h1.2⟩
        · exact Or.inr h1
      · rintro (⟨h1 | h1, hne⟩ | h1)
        · exact Or.inl h1
        · exact Or.inr (Or.inl ⟨h1, hne⟩)
        · exact Or.inr (Or.inr h1)

theorem keys_mapSet (m : List (String × String)) (k v : String) :
    (mapSet m k v).map Prod.fst
      = if k ∈ m.map Prod.fst then m.map Prod.fst else m.map Prod.fst ++ [k] := by
  induction m with
  | nil => simp [mapSet]
  | cons x rest ih =>
    obtain ⟨k0, v0⟩ := x
    by_cases h : k0 = k
    · simp [mapSet, h]
    · have h2 : ¬ k = k0 := fun e => h e.symm
      by_cases hk : k ∈ rest.map Prod.fst
      · simp only [mapSet, h, if_false, List.map_cons, ih, hk, if_true, List.mem_cons, or_true]
      · simp only [mapSet, h, if_false, List.map_cons, ih, hk, List.mem_cons, h2, or_self,
          List.cons_append]

theorem nodup_keys_mapSet (m : List (String × String)) (k v : String)
    (hm : (m.map Prod.fst).Nodup) : ((mapSet m k v).map Prod.fst).Nodup := by
  rw [keys_mapSet]
  by_cases hk : k ∈ m.map Prod.fst
  · simpa [hk] using hm
  · simp only [hk, if_false]
    refine List.Nodup.append hm (List.nodup_singleton k) ?_
    intro a ha hk2
    rw [List.mem_singleton] at hk2
    exact hk (hk2 ▸ ha)

/-- The map `latestByUser` builds: its keys are distinct, and it holds `(u, s)`
exactly when `u` is a non-empty login whose last review in the payload has
state `s`. -/
theorem latestByUser_spec (payload : List reviewEntry) :
    ((latestByUser payload).map Prod.fst).Nodup
      ∧ ∀ u s, (u, s) ∈ latestByUser payload
          ↔ u ≠ "" ∧ (lastReview payload u).map reviewEntry.State = some s := by
  induction payload using List.reverseRecOn with
  | nil => simp [latestByUser, lastReview]
  | append_singleton p r ih =>
    obtain ⟨hnd, hmem⟩ := ih
    rw [latestByUser_append]
    by_cases hr : r.Login = ""
    · simp only [hr, if_true]
      refine ⟨hnd, fun u s => ?_⟩
      rw [hmem, lastReview_append]
      by_cases hu : u = ""
      · simp [hu]
      · have : ¬ r.Login = u := fun e => hu (by rw [← e, hr])
        simp [this]
    · simp only [hr, if_false]
      refine ⟨nodup_keys_mapSet _ _ _ hnd, fun u s => ?_⟩
      rw [mem_mapSet _ _ _ _ hnd, lastReview_append, hmem]
      by_cases hu : r.Login = u
      · subst hu
        simp [hr, eq_comm]
      · have hu2 : ¬ u = r.Login := fun e => hu e.symm
        simp [hu, hu2]

theorem countState_eq (ct : CaseTables) (summary : reviewSummary) (state : String) :
    countState ct summary state
      = { approvals :=
            summary.approvals + if strings.ToUpper ct state = "APPROVED" then 1 else 0
          changesRequested :=
            summary.changesRequested
              + if strings.ToUpper ct state = "CHANGES_REQUESTED" then 1 else 0
          commented :=
            summary.commented + if strings.ToUpper ct state = "COMMENTED" then 1 else 0 } := by
  unfold countState
  by_cases h1 : strings.ToUpper ct state = "APPROVED"
  · simp [h1]
  · by_cases h2 : strings.ToUpper ct state = "CHANGES_REQUESTED"
    · simp [h2]
    · by_cases h3 : strings.ToUpper ct state = "COMMENTED"
      · simp [h3]
      · simp [h1, h2, h3]

theorem summarize_foldl (ct : CaseTables) (entries : List (String × String))
    (acc : reviewSummary) :
    entries.foldl (fun summary e => countState ct summary e.2) acc
      = { approvals :=
            acc.approvals + (entries.countP fun e => strings.ToUpper ct e.2 = "APPROVED")
          changesRequested :=
            acc.changesRequested
              + (entries.countP fun e => strings.ToUpper ct e.2 = "CHANGES_REQUESTED")
          commented :=
            acc.commented + (entries.countP fun e => strings.ToUpper ct e.2 = "COMMENTED") } := by
  induction entries generalizing acc with
  | nil => simp
  | cons x xs ih =>
    rw [List.foldl_cons, ih, countState_eq]
    simp only [List.countP_cons, decide_eq_true_eq]
    congr 1 <;> split <;> simp <;> ring

theorem summarize_eq (ct : CaseTables) (entries : List (String × String)) :
    summarize ct entries
      = { approvals := (entries.countP fun e => strings.ToUpper ct e.2 = "APPROVED" : Nat)
          changesRequested :=
            (entries.countP fun e => strings.ToUpper ct e.2 = "CHANGES_REQUESTED" : Nat)
          commented := (entries.countP fun e => strings.ToUpper ct e.2 = "COMMENTED" : Nat) } := by
  simp [summarize, summarize_foldl]

theorem lastReview_mem (payload : List reviewEntry) (u : String) (r : reviewEntry)
    (h : lastReview payload u = some r) : r ∈ payload ∧ r.Login = u := by
  have := List.mem_of_getLast?_eq_some h
  simpa using this

theorem mostRecentReview_mem (payload : List reviewEntry) (u : String) (r : reviewEntry)
    (h : mostRecentReview payload u = some r) : r ∈ payload ∧ r.Login = u := by
  induction payload using List.reverseRecOn generalizing r with
  | nil => simp [mostRecentReview] at h
  | append_singleton p x ih =>
    rw [mostRecentReview_append] at h
    unfold pickMostRecent at h
    by_cases hx : x.Login = u
    · simp only [hx, if_true] at h
      cases hb : mostRecentReview p u with
      | none =>
        simp only [hb, Option.some.injEq] at h
        subst h
        simp [hx]
      | some b =>
        simp only [hb] at h
        by_cases ht : b.SubmittedAt ≤ x.SubmittedAt
        · simp only [ht, if_true, Option.some.injEq] at h
          subst h
          simp [hx]
        · simp only [ht, if_false, Option.some.injEq] at h
          subst h
          exact ⟨List.mem_append_left _ (ih b hb).1, (ih b hb).2⟩
    · simp only [hx, if_false] at h
      exact ⟨List.mem_append_left _ (ih r h).1, (ih r h).2⟩

/-- When each reviewer's reviews arrive in ascending order of submission, the
last review of a reviewer is the most recent one. -/
theorem lastReview_eq_mostRecentReview (payload : List reviewEntry) (u : String)
    (hsorted : payload.Pairwise fun a b => a.Login = b.Login → a.SubmittedAt ≤ b.SubmittedAt) :
    lastReview payload u = mostRecentReview payload u := by
  induction payload using List.reverseRecOn with
  | nil => simp [lastReview, mostRecentReview]
  | append_singleton p x ih =>
    rw [List.pairwise_append] at hsorted
    obtain ⟨hp, -, hcross⟩ := hsorted
    rw [lastReview_append, mostRecentReview_append]
    unfold pickMostRecent
    by_cases hx : x.Login = u
    · simp only [hx, if_true]
      cases hb : mostRecentReview p u with
      | none => rfl
      | some b =>
        have hbm := mostRecentReview_mem p u b hb
        have : b.SubmittedAt ≤ x.SubmittedAt :=
          hcross b hbm.1 x (List.mem_singleton_self x) (by rw [hbm.2, hx])
        simp [this]
    · simp only [hx, if_false]
      exact ih hp

theorem countP_latestByUser (ct : CaseTables) (payload : List reviewEntry) (X : String) :
    (latestByUser payload).countP (fun e => strings.ToUpper ct e.2 = X)
      = ((payload.map reviewEntry.Login).toFinset.filter fun u =>
          u ≠ "" ∧ (lastReview payload u).map (fun r => strings.ToUpper ct r.State)
            = some X).card := by
  obtain ⟨hnd, hmem⟩ := latestByUser_spec payload
  have hnd2 : (((latestByUser payload).filter
      (fun e => decide (strings.ToUpper ct e.2 = X))).map Prod.fst).Nodup :=
    hnd.sublist ((List.filter_sublist _).map Prod.fst)
  rw [List.countP_eq_length_filter, ← List.length_map _ Prod.fst,
    ← List.toFinset_card_of_nodup hnd2]
  congr 1
  ext u
  simp only [List.mem_toFinset, List.mem_map, List.mem_filter, decide_eq_true_eq,
    Finset.mem_filter, Prod.exists, exists_and_right, exists_eq_right]
  constructor
  · rintro ⟨s, hs, hX⟩
    obtain ⟨hu, hl⟩ := (hmem u s).1 hs
    cases hlr : lastReview payload u with
    | none => simp [hlr] at hl
    | some r =>
      simp only [hlr, Option.map_some', Option.some.injEq] at hl
      have hr := lastReview_mem payload u r hlr
      exact ⟨⟨r, hr.1, hr.2⟩, hu, by simp [hl, hX]⟩
  · rintro ⟨-, hu, hl⟩
    cases hlr : lastReview payload u with
    | none => simp [hlr] at hl
    | some r =>
      simp only [hlr, Option.map_some', Option.some.injEq] at hl
      exact ⟨r.State, (hmem u r.State).2 ⟨hu, by simp [hlr]⟩, hl⟩

theorem length_latestByUser (payload : List reviewEntry) :
    ((latestByUser payload).length : Int) = reviewerCount payload := by
  obtain ⟨hnd, hmem⟩ := latestByUser_spec payload
  unfold reviewerCount
  rw [← List.length_map _ Prod.fst, ← List.toFinset_card_of_nodup hnd]
  congr 2
  ext u
  simp only [List.mem_toFinset, List.mem_map, Prod.exists, exists_and_right, exists_eq_right,
    Finset.mem_filter]
  constructor
  · rintro ⟨s, hs⟩
    obtain ⟨hu, hl⟩ := (hmem u s).1 hs
    cases hlr : lastReview payload u with
    | none => simp [hlr] at hl
    | some r =>
      have hr := lastReview_mem payload u r hlr
      exact ⟨⟨r, hr.1, hr.2⟩, hu⟩
  · rintro ⟨⟨r, hr, hru⟩, hu⟩
    have hne : payload.filter (fun r => decide (r.Login = u)) ≠ [] := by
      intro he
      have : r ∈ payload.filter (fun r => decide (r.Login = u)) := by
        simp [List.mem_filter, hr, hru]
      rw [he] at this
      exact absurd this (List.not_mem_nil r)
    obtain ⟨r2, hr2⟩ : ∃ r2, lastReview payload u = some r2 := by
      unfold lastReview
      exact ⟨_, List.getLast?_eq_getLast _ hne⟩
    exact ⟨r2.State, (hmem u r2.State).2 ⟨hu, by simp [hr2]⟩⟩

theorem summarize_perm (ct : CaseTables) (e₁ e₂ : List (String × String)) (h : e₁.Perm e₂) :
    summarize ct e₁ = summarize ct e₂ := by
  rw [summarize_eq, summarize_eq]
  simp [h.countP_eq]

theorem reviewTally_eq_card (ct : CaseTables) (payload : List reviewEntry) :
    reviewTally ct payload
      = { approvals := (((payload.map reviewEntry.Login).toFinset.filter fun u =>
            u ≠ "" ∧ (lastReview payload u).map (fun r => strings.ToUpper ct r.State)
              = some "APPROVED").card : Nat)
          changesRequested := (((payload.map reviewEntry.Login).toFinset.filter fun u =>
            u ≠ "" ∧ (lastReview payload u).map (fun r => strings.ToUpper ct r.State)
              = some "CHANGES_REQUESTED").card : Nat)
          commented := (((payload.map reviewEntry.Login).toFinset.filter fun u =>
            u ≠ "" ∧ (lastReview payload u).map (fun r => strings.ToUpper ct r.State)
              = some "COMMENTED").card : Nat) } := by
  rw [reviewTally, summarize_eq, countP_latestByUser, countP_latestByUser, countP_latestByUser]

theorem countP_three_le (ct : CaseTables) (entries : List (String × String)) :
    (entries.countP fun e => strings.ToUpper ct e.2 = "APPROVED")
        + (entries.countP fun e => strings.ToUpper ct e.2 = "CHANGES_REQUESTED")
        + (entries.countP fun e => strings.ToUpper ct e.2 = "COMMENTED")
      ≤ entries.length := by
  induction entries with
  | nil => simp
  | cons x xs ih =>
    simp only [List.countP_cons, decide_eq_true_eq, List.length_cons]
    by_cases h1 : strings.ToUpper ct x.2 = "APPROVED"
    · simp only [h1, if_true, show ¬ ("APPROVED" = "CHANGES_REQUESTED") by decide,
        show ¬ ("APPROVED" = "COMMENTED") by decide, if_false]
      omega
    · by_cases h2 : strings.ToUpper ct x.2 = "CHANGES_REQUESTED"
      · simp only [h2, if_true, show ¬ ("CHANGES_REQUESTED" = "APPROVED") by decide,
          show ¬ ("CHANGES_REQUESTED" = "COMMENTED") by decide, if_false]
        omega
      · simp only [h1, h2, if_false]
        split <;> omega

/-- C4, as the claim states it, fails: when a reviewer's reviews do not arrive
in the order of submission, the code counts the review that arrives last, not
the one submitted last. Here reviewer A approved at time 2 and commented at
time 1, and the approval comes first in the list: the code counts one comment,
the most recent submission is the approval. -/
theorem C4_arrival_order_counterexample :
    (∀ ct : CaseTables,
        fetchPullRequestReviews ct
            (Result.ok [⟨"APPROVED", "A", 2⟩, ⟨"COMMENTED", "A", 1⟩])
          = Result.ok ⟨0, 0, 1⟩)
    ∧ (∀ ct : CaseTables,
        tallyByMostRecent ct [⟨"APPROVED", "A", 2⟩, ⟨"COMMENTED", "A", 1⟩] = ⟨1, 0, 0⟩) :=
  ⟨fun _ => rfl, fun _ => rfl⟩

/-- C4, amended: the order of arrival decides. For every list of reviews in
which the reviews of each reviewer arrive in ascending order of submitted-at,
the tally of `fetchPullRequestReviews` is the tally by most recent submission:
approvals, changesRequested and commented are the numbers of reviewers with a
non-empty login whose review with the greatest submitted-at has, upper-cased,
the state APPROVED, CHANGES_REQUESTED and COMMENTED; and this is so in whatever
order the entries of the map are visited. -/
theorem C4_tally_by_most_recent (ct : CaseTables) (payload : List reviewEntry)
    (hsorted : payload.Pairwise fun a b => a.Login = b.Login → a.SubmittedAt ≤ b.SubmittedAt) :
    fetchPullRequestReviews ct (Result.ok payload) = Result.ok (tallyByMostRecent ct payload)
      ∧ ∀ entries : List (String × String), entries.Perm (latestByUser payload) →
          summarize ct entries = tallyByMostRecent ct payload := by
  have key : reviewTally ct payload = tallyByMostRecent ct payload := by
    rw [reviewTally_eq_card]
    simp only [tallyByMostRecent, countByMostRecent,
      lastReview_eq_mostRecentReview payload _ hsorted]
  refine ⟨by simp [fetchPullRequestReviews, key], fun entries hperm => ?_⟩
  rw [summarize_perm ct _ _ hperm]
  exact key

/-- A run of C4: A comments and then approves, B requests changes. -/
theorem C4_tally_by_most_recent_witness :
    fetchPullRequestReviews CaseTables.plain
        (Result.ok [⟨"COMMENTED", "A", 1⟩, ⟨"APPROVED", "A", 2⟩, ⟨"CHANGES_REQUESTED", "B", 3⟩])
      = Result.ok (tallyByMostRecent CaseTables.plain
          [⟨"COMMENTED", "A", 1⟩, ⟨"APPROVED", "A", 2⟩, ⟨"CHANGES_REQUESTED", "B", 3⟩]) :=
  (C4_tally_by_most_recent CaseTables.plain
    [⟨"COMMENTED", "A", 1⟩, ⟨"APPROVED", "A", 2⟩, ⟨"CHANGES_REQUESTED", "B", 3⟩]
    (by decide)).1

/-- C5, as the claim states it, fails for the empty login: reviews without a
login are skipped (github.go lines 334-337), so the two reviews COMMENTED and
APPROVED of the login "" give the tally 0, 0, 0 and not 1, 0, 0, whatever the
timestamps and the case tables. -/
theorem C5_empty_login_counterexample :
    (1 : Time) < 2
    ∧ fetchPullRequestReviews CaseTables.plain
        (Result.ok [⟨"COMMENTED", "", 1⟩, ⟨"APPROVED", "", 2⟩]) = Result.ok ⟨0, 0, 0⟩
    ∧ (⟨0, 0, 0⟩ : reviewSummary) ≠ ⟨1, 0, 0⟩
    ∧ ∀ (ct : CaseTables) (t1 t2 : Time),
        fetchPullRequestReviews ct (Result.ok [⟨"COMMENTED", "", t1⟩, ⟨"APPROVED", "", t2⟩])
          = Result.ok ⟨0, 0, 0⟩ :=
  ⟨by decide, rfl, by decide, fun _ _ _ => rfl⟩

/-- C5, amended. For every list of reviews `fetchPullRequestReviews` returns a
tally in which each reviewer counts at most once: approvals, changesRequested
and commented sum to at most the number of distinct non-empty logins of the
list; and for the reviews (A, COMMENTED, t1), (A, APPROVED, t2) with t2 > t1 of
a reviewer with a non-empty login A the tally is one approval, no change request
and no comment. -/
theorem C5_each_reviewer_counts_once (ct : CaseTables) (payload : List reviewEntry) :
    (∃ s : reviewSummary,
        fetchPullRequestReviews ct (Result.ok payload) = Result.ok s
        ∧ s.approvals + s.changesRequested + s.commented ≤ reviewerCount payload)
      ∧ ∀ (A : String) (t1 t2 : Time), A ≠ "" → t1 < t2 →
          fetchPullRequestReviews ct (Result.ok [⟨"COMMENTED", A, t1⟩, ⟨"APPROVED", A, t2⟩])
            = Result.ok ⟨1, 0, 0⟩ := by
  constructor
  · refine ⟨reviewTally ct payload, rfl, ?_⟩
    rw [← length_latestByUser, reviewTally, summarize_eq]
    have := countP_three_le ct (latestByUser payload)
    simp only
    exact_mod_cast this
  · intro A t1 t2 hA _
    have hup : strings.ToUpper ct "APPROVED" = "APPROVED" := rfl
    simp [fetchPullRequestReviews, reviewTally, latestByUser, mapSet, hA, summarize, countState,
      hup]

/-- A run of C5: "octocat" comments and then approves, "hubot" requests changes
and a review of a deleted account has no login. The tally is one approval and
one change request, within the two reviewers of the list. -/
theorem C5_each_reviewer_counts_once_witness :
    fetchPullRequestReviews CaseTables.plain
        (Result.ok [⟨"COMMENTED", "octocat", 10⟩, ⟨"APPROVED", "", 15⟩,
          ⟨"APPROVED", "octocat", 20⟩, ⟨"CHANGES_REQUESTED", "hubot", 30⟩])
      = Result.ok ⟨1, 1, 0⟩
    ∧ (∃ s : reviewSummary,
        fetchPullRequestReviews CaseTables.plain
            (Result.ok [⟨"COMMENTED", "octocat", 10⟩, ⟨"APPROVED", "", 15⟩,
              ⟨"APPROVED", "octocat", 20⟩, ⟨"CHANGES_REQUESTED", "hubot", 30⟩])
          = Result.ok s
        ∧ s.approvals + s.changesRequested + s.commented
            ≤ reviewerCount [⟨"COMMENTED", "octocat", 10⟩, ⟨"APPROVED", "", 15⟩,
                ⟨"APPROVED", "octocat", 20⟩, ⟨"CHANGES_REQUESTED", "hubot", 30⟩])
    ∧ fetchPullRequestReviews CaseTables.plain
        (Result.ok [⟨"COMMENTED", "octocat", 10⟩, ⟨"APPROVED", "octocat", 20⟩])
      = Result.ok ⟨1, 0, 0⟩ :=
  ⟨rfl,
   (C5_each_reviewer_counts_once CaseTables.plain
      [⟨"COMMENTED", "octocat", 10⟩, ⟨"APPROVED", "", 15⟩, ⟨"APPROVED", "octocat", 20⟩,
        ⟨"CHANGES_REQUESTED", "hubot", 30⟩]).1,
   (C5_each_reviewer_counts_once CaseTables.plain
      [⟨"COMMENTED", "octocat", 10⟩, ⟨"APPROVED", "", 15⟩, ⟨"APPROVED", "octocat", 20⟩,
        ⟨"CHANGES_REQUESTED", "hubot", 30⟩]).2 "octocat" 10 20 (by decide) (by decide)⟩

/-! ### Link relations -/

theorem splitRunes_ne_nil (sep : Char) (l : List Char) : strings.splitRunes sep l ≠ [] := by
  cases l with
  | nil => simp [strings.splitRunes]
  | cons c cs =>
    by_cases h : c = sep
    · simp [strings.splitRunes, h]
    · cases hs : strings.splitRunes sep cs <;> simp [strings.splitRunes, h, hs]

theorem intercalate_cons_cons (sep x y : List Char) (ys : List (List Char)) :
    sep.intercalate (x :: y :: ys) = x ++ sep ++ sep.intercalate (y :: ys) := by
  simp [List.intercalate, List.intersperse]

theorem splitRunes_intercalate (sep : Char) (l : List Char) :
    [sep].intercalate (strings.splitRunes sep l) = l := by
  induction l with
  | nil => simp [strings.splitRunes, List.intercalate]
  | cons c cs ih =>
    cases hs : strings.splitRunes sep cs with
    | nil => exact absurd hs (splitRunes_ne_nil sep cs)
    | cons p ps =>
      rw [hs] at ih
      by_cases h : c = sep
      · simp only [strings.splitRunes, h, if_true, hs]
        rw [intercalate_cons_cons, ih]
        simp
      · simp only [strings.splitRunes, h, if_false, hs]
        cases ps with
        | nil =>
          simp only [List.intercalate, List.intersperse, List.flatten, List.append_nil] at ih ⊢
          rw [ih]
        | cons q qs =>
          rw [intercalate_cons_cons] at ih ⊢
          simp only [List.cons_append, List.append_assoc] at ih ⊢
          rw [ih]

theorem splitRunes_no_sep (sep : Char) (l seg : List Char)
    (h : seg ∈ strings.splitRunes sep l) : sep ∉ seg := by
  induction l generalizing seg with
  | nil =>
    simp only [strings.splitRunes, List.mem_singleton] at h
    subst h
    exact List.not_mem_nil sep
  | cons c cs ih =>
    cases hs : strings.splitRunes sep cs with
    | nil => exact absurd hs (splitRunes_ne_nil sep cs)
    | cons p ps =>
      rw [hs] at ih
      by_cases hc : c = sep
      · simp only [strings.splitRunes, hc, if_true, hs, List.mem_cons] at h
        rcases h with h | h
        · subst h
          exact List.not_mem_nil sep
        · exact ih seg (List.mem_cons.2 h)
      · simp only [strings.splitRunes, hc, if_false, hs, List.mem_cons] at h
        rcases h with h | h
        · subst h
          intro hmem
          rcases List.mem_cons.1 hmem with h1 | h1
          · exact hc h1.symm
          · exact ih p (List.mem_cons_self p ps) h1
        · exact ih seg (List.mem_cons_of_mem p h)

theorem hasLinkRel_iff (linkHeader rel : String) :
    hasLinkRel linkHeader rel = true
      ↔ ∃ seg ∈ strings.Split linkHeader ',',
          ("rel=\"" ++ rel ++ "\"").data <:+: seg.data := by
  unfold hasLinkRel
  by_cases h : linkHeader = ""
  · subst h
    simp only [if_true, Bool.false_eq_true, false_iff, not_exists, not_and]
    intro seg hseg hin
    have hseg2 : seg = "" := by
      simpa [strings.Split, strings.splitRunes] using hseg
    subst hseg2
    have := List.eq_nil_of_infix_nil hin
    simp at this
  · simp only [h, if_false, List.any_eq_true, Contains_iff]

/-- C6. `hasLinkRel(h, rel)` is true exactly when some comma-separated segment
of `h` contains the text `rel="<rel>"`, where the segments are the pieces of `h`
between its commas (joined by commas they give `h` back, and none contains a
comma); `hasLinkRel("", rel)` is false, so an absent `Link` header gives
has-next = has-prev = false; and for the header
`<...>; rel="next", <...>; rel="prev"` it is true for "next" and "prev" and
false for "last". -/
theorem C6_hasLinkRel_segments (linkHeader rel : String) (page : Int) :
    (hasLinkRel linkHeader rel = true
        ↔ ∃ seg ∈ strings.Split linkHeader ',',
            ("rel=\"" ++ rel ++ "\"").data <:+: seg.data)
    ∧ [','].intercalate ((strings.Split linkHeader ',').map String.data) = linkHeader.data
    ∧ (∀ seg ∈ strings.Split linkHeader ',', ',' ∉ seg.data)
    ∧ hasLinkRel "" rel = false
    ∧ pageInfoOf page "" = ⟨page, false, false⟩
    ∧ hasLinkRel "<...>; rel=\"next\", <...>; rel=\"prev\"" "next" = true
    ∧ hasLinkRel "<...>; rel=\"next\", <...>; rel=\"prev\"" "prev" = true
    ∧ hasLinkRel "<...>; rel=\"next\", <...>; rel=\"prev\"" "last" = false := by
  refine ⟨hasLinkRel_iff linkHeader rel, ?_, ?_, rfl, rfl, by decide, by decide, by decide⟩
  · simp only [strings.Split, List.map_map]
    have : (String.data ∘ String.mk) = id := rfl
    rw [this, List.map_id]
    exact splitRunes_intercalate ',' linkHeader.data
  · intro seg hseg
    simp only [strings.Split, List.mem_map] at hseg
    obtain ⟨r, hr, rfl⟩ := hseg
    exact splitRunes_no_sep ',' linkHeader.data r hr

/-! ### Comment pages are 1-based -/

theorem detailViewModel_reach : Reach Widgets.simple detailViewModel [1] := by
  have h0 : Reach Widgets.simple startModel [] := @Reach.init Widgets.simple ([], 0) ()
  have h1 : Reach Widgets.simple
      { startModel with
        list := ([sampleItem, otherItem], 0)
        status := "Loaded 2 items • updated just now"
        loading := false } ([] ++ pagesOf Cmd.nil) :=
    Reach.step (fun _ => 0) (Msg.fetchResult [sampleItem, otherItem] none) _ Cmd.nil h0
      (fun _ h => by cases h) rfl
  have h2 : Reach Widgets.simple
      { startModel with
        list := ([sampleItem, otherItem], 0)
        status := "Loaded 2 items • updated just now"
        loading := false
        showDetail := true
        detailLoading := true }
      (([] ++ pagesOf Cmd.nil) ++ pagesOf (Cmd.fetchDetailCmd sampleItem 1)) :=
    Reach.step (fun _ => 0) (Msg.KeyMsg "enter") _ (Cmd.fetchDetailCmd sampleItem 1) h1
      (fun _ h => by cases h) rfl
  exact Reach.step (fun _ => 0) (Msg.detailResult sampleDetail none) detailViewModel Cmd.nil h2
    (fun item h => by
      cases h
      decide)
    rfl

/-- C8 on the code: the detail fetch of "n" is for `m.actionItem`, the item
captured by the last "c" or "x", not for the item the detail view shows. After
a search result, "enter" on octo/repo#7 and its detail result, "n" fetches page
2 of the zero item (no repo, number 0), while the detail shown is octo/repo#7;
and when a comment on octo/docs#3 was begun and cancelled before, "n" in the
detail view of octo/repo#7 fetches page 2 of octo/docs#3. -/
theorem C8_next_page_targets_action_item :
    (run Widgets.simple startModel
        [Msg.fetchResult [sampleItem, otherItem] none, Msg.KeyMsg "enter",
          Msg.detailResult sampleDetail none, Msg.KeyMsg "n"]).map
        (fun r => (r.1.detailItem.Repo, r.1.detailItem.Number, r.2))
      = some ("octo/repo", 7,
          [Cmd.nil, Cmd.fetchDetailCmd sampleItem 1, Cmd.nil,
            Cmd.fetchDetailCmd issueItem.zero 2])
    ∧ (run Widgets.simple startModel
        [Msg.fetchResult [sampleItem, otherItem] none, Msg.KeyMsg "j", Msg.KeyMsg "c",
          Msg.KeyMsg "esc", Msg.KeyMsg "k", Msg.KeyMsg "enter",
          Msg.detailResult sampleDetail none, Msg.KeyMsg "n"]).map
        (fun r => (r.1.detailItem.Repo, r.1.detailItem.Number, r.2))
      = some ("octo/repo", 7,
          [Cmd.nil, Cmd.nil, Cmd.nil, Cmd.nil, Cmd.nil, Cmd.fetchDetailCmd sampleItem 1, Cmd.nil,
            Cmd.fetchDetailCmd otherItem 2]) := by
  constructor <;> rfl

/-! ### Submitting a comment -/

theorem TrimSpace_eq_empty_iff (s : String) :
    strings.TrimSpace s = "" ↔ ∀ c ∈ s.data, unicode.IsSpace c = true := by
  unfold strings.TrimSpace
  constructor
  · intro h
    have h1 : (s.data.dropWhile unicode.IsSpace).rdropWhile unicode.IsSpace = [] := by
      have := congrArg String.data h
      simpa using this
    rw [List.rdropWhile_eq_nil_iff] at h1
    have h2 : s.data.dropWhile unicode.IsSpace = [] := by
      by_contra hne
      have := List.head_dropWhile_not unicode.IsSpace s.data hne
      have h3 := h1 _ (List.head_mem hne)
      simp [h3] at this
    exact List.dropWhile_eq_nil_iff.1 h2
  · intro h
    have h2 : s.data.dropWhile unicode.IsSpace = [] := List.dropWhile_eq_nil_iff.2 h
    rw [h2]
    rfl

/-- C9. In compose mode, when the input buffer is empty or holds only
whitespace, "ctrl+g" issues no command, leaves `commentMode` true and
`actionLoading` as it was, and sets the status to "Comment is empty"; when the
trimmed buffer is not empty, it leaves compose mode, sets `actionLoading`, and
issues `postComment` for the captured item with the trimmed body. The trimmed
buffer is empty exactly when every rune of the buffer is whitespace. -/
theorem C9_submit_comment (W : Widgets) (clock : Nat → Time) (m : model W)
    (hmode : m.commentMode = true) :
    ((∀ c ∈ (W.Value m.textarea).data, unicode.IsSpace c = true) →
        Update W clock m (Msg.KeyMsg "ctrl+g")
            = some ({ m with status := "Comment is empty", statusOverride := true }, Cmd.nil)
          ∧ ({ m with status := "Comment is empty", statusOverride := true } : model W).commentMode
              = true
          ∧ ({ m with status := "Comment is empty", statusOverride := true }
              : model W).actionLoading = m.actionLoading)
    ∧ (strings.TrimSpace (W.Value m.textarea) ≠ "" →
        Update W clock m (Msg.KeyMsg "ctrl+g")
          = some ({ m with
                    commentMode := false
                    textarea := W.SetValue (W.Blur m.textarea) ""
                    actionLoading := true
                    status := "Sending comment to " ++ m.actionItem.Repo ++ "#"
                      ++ toString m.actionItem.Number ++ "..."
                    statusOverride := true },
                  Cmd.postCommentCmd m.actionItem (strings.TrimSpace (W.Value m.textarea))))
    ∧ (strings.TrimSpace (W.Value m.textarea) = ""
        ↔ ∀ c ∈ (W.Value m.textarea).data, unicode.IsSpace c = true) := by
  refine ⟨fun h => ⟨?_, hmode, rfl⟩, fun h => ?_, TrimSpace_eq_empty_iff _⟩
  · have hb := (TrimSpace_eq_empty_iff _).2 h
    simp [Update, hmode, updateCompose, hb]
  · simp [Update, hmode, updateCompose, h]

/-- Runs of C9: a buffer of blanks and a line break is rejected, the buffer
" LGTM " is sent as "LGTM". -/
theorem C9_submit_comment_witness :
    Update Widgets.simple (fun _ => 0) (composeModel "  \n ") (Msg.KeyMsg "ctrl+g")
        = some ({ composeModel "  \n " with
                  status := "Comment is empty", statusOverride := true }, Cmd.nil)
    ∧ Update Widgets.simple (fun _ => 0) (composeModel " LGTM ") (Msg.KeyMsg "ctrl+g")
        = some ({ composeModel " LGTM " with
                  commentMode := false
                  textarea := ("", false)
                  actionLoading := true
                  status := "Sending comment to octo/repo#7..."
                  statusOverride := true },
                Cmd.postCommentCmd sampleItem "LGTM") :=
  ⟨((C9_submit_comment Widgets.simple (fun _ => 0) (composeModel "  \n ") rfl).1
      (by decide)).1,
   (C9_submit_comment Widgets.simple (fun _ => 0) (composeModel " LGTM ") rfl).2.1
      (by decide)⟩

/-! ### The indices stay in range -/

theorem index_of_some_eq {W : Widgets} {m0 m1 : model W} {c0 c : Cmd}
    (h : some (m0, c0) = some (m1, c)) (hinv : IndexInv m0) : IndexInv m1 := by
  simp only [Option.some.injEq, Prod.mk.injEq] at h
  obtain ⟨rfl, rfl⟩ := h
  exact hinv

theorem nextIndex_range (i n j : Int) (hi : 0 ≤ i) (hn : 0 < n) (h : nextIndex i n = some j) :
    0 ≤ j ∧ j < n := by
  unfold nextIndex at h
  have hn0 : ¬ n = 0 := by omega
  simp only [hn0, if_false, Option.some.injEq] at h
  subst h
  have h1 : (0 : Int) ≤ i + 1 := by omega
  rw [Int.tmod_eq_emod h1 (le_of_lt hn)]
  exact ⟨Int.emod_nonneg _ (by omega), Int.emod_lt_of_pos _ hn⟩

theorem key_index (W : Widgets) (m m1 : model W) (c : Cmd) (hinv : IndexInv m) :
    (keyEsc W m = some (m1, c) → IndexInv m1)
    ∧ (keyDown W m = some (m1, c) → IndexInv m1)
    ∧ (keyUp W m = some (m1, c) → IndexInv m1)
    ∧ (keyRefresh W m = some (m1, c) → IndexInv m1)
    ∧ (keyFilter W m = some (m1, c) → IndexInv m1)
    ∧ (keyTab W m = some (m1, c) → IndexInv m1)
    ∧ (keyComment W m = some (m1, c) → IndexInv m1)
    ∧ (keyNext W m = some (m1, c) → IndexInv m1)
    ∧ (keyPrev W m = some (m1, c) → IndexInv m1)
    ∧ (keyClose W m = some (m1, c) → IndexInv m1)
    ∧ (keyOpen W m = some (m1, c) → IndexInv m1)
    ∧ (keyEnter W m = some (m1, c) → IndexInv m1) := by
  refine ⟨fun h => ?_, fun h => ?_, fun h => ?_, fun h => ?_, fun h => ?_, fun h => ?_,
    fun h => ?_, fun h => ?_, fun h => ?_, fun h => ?_, fun h => ?_, fun h => ?_⟩
  · unfold keyEsc updateList at h
    split_ifs at h <;> exact index_of_some_eq h hinv
  · unfold keyDown at h
    split_ifs at h <;> exact index_of_some_eq h hinv
  · unfold keyUp at h
    split_ifs at h <;> exact index_of_some_eq h hinv
  · unfold keyRefresh at h
    split_ifs at h
    · split at h <;> exact index_of_some_eq h hinv
    · simp only [Option.map_eq_some'] at h
      obtain ⟨c0, -, h⟩ := h
      exact index_of_some_eq (congrArg some h) hinv
  · unfold keyFilter at h
    split_ifs at h
    · simp only [Option.bind_eq_some, Option.map_eq_some'] at h
      obtain ⟨i, hi, c0, -, h⟩ := h
      obtain ⟨hfs, h0, h5, ht0, ht2⟩ := hinv
      have hr := nextIndex_range m.filterIndex m.filters.length i h0
        (by rw [hfs]; decide) hi
      have hlen : ((m.filters.length : Nat) : Int) = 5 := by rw [hfs]; rfl
      have hi5 : i < 5 := by omega
      exact index_of_some_eq (congrArg some h) ⟨hfs, hr.1, hi5, ht0, ht2⟩
    · exact index_of_some_eq h hinv
  · unfold keyTab at h
    split_ifs at h
    · simp only [Option.bind_eq_some, Option.map_eq_some'] at h
      obtain ⟨i, hi, c0, -, h⟩ := h
      obtain ⟨hfs, h0, h5, ht0, ht2⟩ := hinv
      have hr := nextIndex_range m.tabIndex tabs.length i ht0 (by decide) hi
      have hlen : ((tabs.length : Nat) : Int) = 2 := rfl
      have hi2 : i < 2 := by omega
      exact index_of_some_eq (congrArg some h) ⟨hfs, h0, h5, hr.1, hi2⟩
    · exact index_of_some_eq h hinv
  · unfold keyComment at h
    split_ifs at h
    · exact index_of_some_eq h hinv
    · split at h <;> exact index_of_some_eq h hinv
  · unfold keyNext at h
    split_ifs at h <;> exact index_of_some_eq h hinv
  · unfold keyPrev at h
    split_ifs at h <;> exact index_of_some_eq h hinv
  · unfold keyClose at h
    split_ifs at h
    · exact index_of_some_eq h hinv
    · exact index_of_some_eq h hinv
    · split at h <;> exact index_of_some_eq h hinv
  · unfold keyOpen at h
    split at h <;> exact index_of_some_eq h hinv
  · unfold keyEnter at h
    split at h <;> exact index_of_some_eq h hinv

theorem updateKey_index (W : Widgets) (m m1 : model W) (key : String) (c : Cmd)
    (hinv : IndexInv m) (h : updateKey W m key = some (m1, c)) : IndexInv m1 := by
  have ho := key_index W m m1 c hinv
  unfold updateKey at h
  by_cases h1 : key = "ctrl+c" ∨ key = "q"
  · rw [if_pos h1] at h
    exact index_of_some_eq h hinv
  rw [if_neg h1] at h
  by_cases h2 : key = "esc"
  · rw [if_pos h2] at h
    exact ho.1 h
  rw [if_neg h2] at h
  by_cases h3 : key = "j" ∨ key = "down"
  · rw [if_pos h3] at h
    exact ho.2.1 h
  rw [if_neg h3] at h
  by_cases h4 : key = "k" ∨ key = "up"
  · rw [if_pos h4] at h
    exact ho.2.2.1 h
  rw [if_neg h4] at h
  by_cases h5 : key = "r"
  · rw [if_pos h5] at h
    exact ho.2.2.2.1 h
  rw [if_neg h5] at h
  by_cases h6 : key = "f"
  · rw [if_pos h6] at h
    exact ho.2.2.2.2.1 h
  rw [if_neg h6] at h
  by_cases h7 : key = "tab"
  · rw [if_pos h7] at h
    exact ho.2.2.2.2.2.1 h
  rw [if_neg h7] at h
  by_cases h8 : key = "c"
  · rw [if_pos h8] at h
    exact ho.2.2.2.2.2.2.1 h
  rw [if_neg h8] at h
  by_cases h9 : key = "n"
  · rw [if_pos h9] at h
    exact ho.2.2.2.2.2.2.2.1 h
  rw [if_neg h9] at h
  by_cases h10 : key = "p"
  · rw [if_pos h10] at h
    exact ho.2.2.2.2.2.2.2.2.1 h
  rw [if_neg h10] at h
  by_cases h11 : key = "x"
  · rw [if_pos h11] at h
    exact ho.2.2.2.2.2.2.2.2.2.1 h
  rw [if_neg h11] at h
  by_cases h12 : key = "o"
  · rw [if_pos h12] at h
    exact ho.2.2.2.2.2.2.2.2.2.2.1 h
  rw [if_neg h12] at h
  by_cases h13 : key = "enter"
  · rw [if_pos h13] at h
    exact ho.2.2.2.2.2.2.2.2.2.2.2 h
  rw [if_neg h13] at h
  exact index_of_some_eq h hinv

/-- One step of `Update` keeps the indices in range. -/
theorem Update_index (W : Widgets) (clock : Nat → Time) (m m1 : model W) (msg : Msg) (c : Cmd)
    (hinv : IndexInv m) (h : Update W clock m msg = some (m1, c)) : IndexInv m1 := by
  cases msg with
  | WindowSizeMsg w hgt => exact index_of_some_eq h hinv
  | KeyMsg key =>
    simp only [Update] at h
    split_ifs at h
    · unfold updateCompose at h
      split_ifs at h <;> exact index_of_some_eq h hinv
    · unfold updateConfirm at h
      split_ifs at h <;> exact index_of_some_eq h hinv
    · exact updateKey_index W m m1 key c hinv h
  | fetchResult items err => cases err <;> exact index_of_some_eq h hinv
  | detailResult item err => cases err <;> exact index_of_some_eq h hinv
  | commentResult err =>
    cases err with
    | some e => exact index_of_some_eq h hinv
    | none =>
      simp only [Update] at h
      split_ifs at h <;> exact index_of_some_eq h hinv
  | stateResult state err =>
    cases err with
    | some e => exact index_of_some_eq h hinv
    | none =>
      cases hc : activeFetchCmd W m with
      | none => simp [Update, hc] at h
      | some c0 =>
        simp only [Update, hc, Option.map_some'] at h
        split_ifs at h <;> exact index_of_some_eq h hinv
  | TickMsg id => exact index_of_some_eq h hinv
  | other id => exact index_of_some_eq h hinv

/-- In every reachable state the active filter and the active tab exist, so no
index expression of `Update` panics there. -/
theorem Reach_index (W : Widgets) (m : model W) (pages : List Int) (h : Reach W m pages) :
    IndexInv m
      ∧ ∃ f t, index m.filters m.filterIndex = some f ∧ index tabs m.tabIndex = some t := by
  have hinv : IndexInv m := by
    induction h with
    | init l styles =>
      exact ⟨rfl, le_refl 0, show (0 : Int) < 5 by decide, le_refl 0, show (0 : Int) < 2 by decide⟩
    | step clock msg m1 c _ _ hupd ih => exact Update_index W clock _ m1 msg c ih hupd
  refine ⟨hinv, ?_⟩
  obtain ⟨hfs, h0, h5, ht0, ht2⟩ := hinv
  have hf : ∃ f, index m.filters m.filterIndex = some f := by
    rw [hfs]
    unfold index
    have : ¬ m.filterIndex < 0 := by omega
    simp only [this, if_false]
    have hlt : m.filterIndex.toNat < filters.length := by
      have : filters.length = 5 := rfl
      omega
    exact ⟨_, List.get?_eq_get hlt⟩
  have ht : ∃ t, index tabs m.tabIndex = some t := by
    unfold index
    have : ¬ m.tabIndex < 0 := by omega
    simp only [this, if_false]
    have hlt : m.tabIndex.toNat < tabs.length := by
      have : tabs.length = 2 := rfl
      omega
    exact ⟨_, List.get?_eq_get hlt⟩
  obtain ⟨f, hf⟩ := hf
  obtain ⟨t, ht⟩ := ht
  exact ⟨f, t, hf, ht⟩

/-! ### After a close or reopen -/

/-- C10. When a successful `stateResult` arrives, `Update` sets `loading` and
issues the list search for the active pair
`(filters[filterIndex], tabs[tabIndex].Kind)`; in the detail view it also sets
`detailLoading` and issues, in the same batch, the detail fetch for
`m.actionItem` at `m.commentPage`; when the `stateResult` carries an error it
issues no command. The active pair exists: both index expressions are in range
(as they are in every reachable state, `Reach_index`). -/
theorem C10_state_result_refetch (W : Widgets) (clock : Nat → Time) (m : model W)
    (state : String) (f : filter) (t : tab)
    (hf : index m.filters m.filterIndex = some f) (ht : index tabs m.tabIndex = some t) :
    (m.showDetail = false →
        Update W clock m (Msg.stateResult state none)
          = some ({ m with
                    actionLoading := false
                    status := if state = "closed" then "Closed" else "Reopened"
                    statusOverride := true
                    loading := true },
                  Cmd.fetchCmd f t.Kind))
    ∧ (m.showDetail = true →
        Update W clock m (Msg.stateResult state none)
          = some ({ m with
                    actionLoading := false
                    status := if state = "closed" then "Closed" else "Reopened"
                    statusOverride := true
                    loading := true
                    detailLoading := true },
                  Cmd.Batch (Cmd.fetchCmd f t.Kind)
                    (Cmd.fetchDetailCmd m.actionItem m.commentPage)))
    ∧ (∀ e, Update W clock m (Msg.stateResult state (some e))
          = some ({ m with actionLoading := false, status := "Error: " ++ e,
                           statusOverride := true }, Cmd.nil)) := by
  refine ⟨fun h => ?_, fun h => ?_, fun e => ?_⟩
  · simp [Update, h, activeFetchCmd, hf, ht]
  · simp [Update, h, activeFetchCmd, hf, ht]
  · simp [Update]

/-- A run of C10: the close of octo/repo#7 succeeded while its detail is shown
(filter "Open", tab "PRs"). -/
theorem C10_state_result_refetch_witness :
    Update Widgets.simple (fun _ => 0)
        { detailViewModel with actionItem := sampleItem, actionLoading := true }
        (Msg.stateResult "closed" none)
      = some ({ detailViewModel with
                actionItem := sampleItem
                actionLoading := false
                status := "Closed"
                statusOverride := true
                loading := true
                detailLoading := true },
              Cmd.Batch (Cmd.fetchCmd ⟨"Open", "is:open archived:false involves:@me"⟩ "pr")
                (Cmd.fetchDetailCmd sampleItem 1)) :=
  (C10_state_result_refetch Widgets.simple (fun _ => 0)
    { detailViewModel with actionItem := sampleItem, actionLoading := true }
    "closed" ⟨"Open", "is:open archived:false involves:@me"⟩ ⟨"PRs", "pr"⟩ rfl rfl).2.1 rfl

/-! ### Cycling the filter and the tab -/

theorem nextIndex_eq_emod (i n : Int) (hi : 0 ≤ i) (hn : 0 < n) :
    nextIndex i n = some ((i + 1) % n) := by
  unfold nextIndex
  have hn0 : ¬ n = 0 := by omega
  rw [if_neg hn0, Int.tmod_eq_emod (by omega) (le_of_lt hn)]

theorem index_some_of_range {α : Type} (s : List α) (i : Int) (h0 : 0 ≤ i)
    (h1 : i < s.length) : ∃ a, index s i = some a := by
  unfold index
  have : ¬ i < 0 := by omega
  rw [if_neg this]
  have hlt : i.toNat < s.length := by omega
  exact ⟨_, List.get?_eq_get hlt⟩

/-- C11. In the list view (outside compose and confirm mode, indices in range)
"f" advances `filterIndex` to `(filterIndex + 1) mod len(filters)` and "tab"
advances `tabIndex` to `(tabIndex + 1) mod len(tabs)`, each leaving the other
index alone; both give the list no items (`SetItems(nil)`), set `loading` and
issue the search for the updated pair `(filters[filterIndex], tabs[tabIndex].Kind)`.
In the detail view both keys return the model unchanged with no command. -/
theorem C11_cycle_filter_and_tab (W : Widgets) (clock : Nat → Time) (m : model W)
    (hcompose : m.commentMode = false) (hconfirm : m.confirmMode = false)
    (hf0 : 0 ≤ m.filterIndex) (hf1 : m.filterIndex < m.filters.length)
    (ht0 : 0 ≤ m.tabIndex) (ht1 : m.tabIndex < tabs.length) :
    (m.showDetail = false →
        (∃ f t, index m.filters ((m.filterIndex + 1) % m.filters.length) = some f
          ∧ index tabs m.tabIndex = some t
          ∧ Update W clock m (Msg.KeyMsg "f")
              = some ({ m with
                        filterIndex := (m.filterIndex + 1) % m.filters.length
                        loading := true
                        status := "Loading..."
                        list := W.SetItems m.list [] },
                      Cmd.fetchCmd f t.Kind))
        ∧ (∃ f t, index m.filters m.filterIndex = some f
          ∧ index tabs ((m.tabIndex + 1) % tabs.length) = some t
          ∧ Update W clock m (Msg.KeyMsg "tab")
              = some ({ m with
                        tabIndex := (m.tabIndex + 1) % tabs.length
                        loading := true
                        status := "Loading..."
                        list := W.SetItems m.list [] },
                      Cmd.fetchCmd f t.Kind)))
    ∧ (m.showDetail = true →
        Update W clock m (Msg.KeyMsg "f") = some (m, Cmd.nil)
        ∧ Update W clock m (Msg.KeyMsg "tab") = some (m, Cmd.nil)) := by
  have hflen : (0 : Int) < m.filters.length := by omega
  have htlen : (0 : Int) < tabs.length := by omega
  constructor
  · intro hs
    constructor
    · obtain ⟨f, hf⟩ := index_some_of_range m.filters ((m.filterIndex + 1) % m.filters.length)
        (Int.emod_nonneg _ (by omega)) (Int.emod_lt_of_pos _ hflen)
      obtain ⟨t, ht⟩ := index_some_of_range tabs m.tabIndex ht0 ht1
      refine ⟨f, t, hf, ht, ?_⟩
      simp [Update, hcompose, hconfirm, updateKey, keyFilter, hs,
        nextIndex_eq_emod _ _ hf0 hflen, activeFetchCmd, hf, ht]
    · obtain ⟨f, hf⟩ := index_some_of_range m.filters m.filterIndex hf0 hf1
      obtain ⟨t, ht⟩ := index_some_of_range tabs ((m.tabIndex + 1) % tabs.length)
        (Int.emod_nonneg _ (by omega)) (Int.emod_lt_of_pos _ htlen)
      refine ⟨f, t, hf, ht, ?_⟩
      simp [Update, hcompose, hconfirm, updateKey, keyTab, hs,
        nextIndex_eq_emod _ _ ht0 htlen, activeFetchCmd, hf, ht]
  · intro hs
    constructor
    · simp [Update, hcompose, hconfirm, updateKey, keyFilter, hs]
    · simp [Update, hcompose, hconfirm, updateKey, keyTab, hs]

/-- A run of C11: "f" in the list view moves from the filter "Open" to "Review
requested" and searches it for the tab "PRs". -/
theorem C11_cycle_filter_and_tab_witness :
    ∃ f t, index listViewModel.filters
          ((listViewModel.filterIndex + 1) % listViewModel.filters.length) = some f
      ∧ index tabs listViewModel.tabIndex = some t
      ∧ Update Widgets.simple (fun _ => 0) listViewModel (Msg.KeyMsg "f")
          = some ({ listViewModel with
                    filterIndex := (listViewModel.filterIndex + 1) % listViewModel.filters.length
                    loading := true
                    status := "Loading..."
                    list := Widgets.simple.SetItems listViewModel.list [] },
                  Cmd.fetchCmd f t.Kind) :=
  ((C11_cycle_filter_and_tab Widgets.simple (fun _ => 0) listViewModel rfl rfl
    (by decide) (by decide) (by decide) (by decide)).1 rfl).1


/-! ### Resolving the target of a comment or a close -/

theorem Update_key_c (W : Widgets) (clock : Nat → Time) (m : model W)
    (hcompose : m.commentMode = false) (hconfirm : m.confirmMode = false) :
    Update W clock m (Msg.KeyMsg "c") = keyComment W m := by
  simp [Update, hcompose, hconfirm, updateKey]

theorem Update_key_x (W : Widgets) (clock : Nat → Time) (m : model W)
    (hcompose : m.commentMode = false) (hconfirm : m.confirmMode = false) :
    Update W clock m (Msg.KeyMsg "x") = keyClose W m := by
  simp [Update, hcompose, hconfirm, updateKey]

/-- The target of "c" and "x" as the code resolves it, outside compose and
confirm mode: when `showDetail` is set and the title of `m.detailItem` is not
empty, the captured `actionItem` has the title, Repo, Number, URL and Kind of
`m.detailItem`, whether or not the view shows that detail; otherwise, when the
list has a selected item, `actionItem` is that item; and when there is neither,
the key press returns the model unchanged with no command. -/
theorem target_item_of_key (W : Widgets) (clock : Nat → Time) (m : model W)
    (hcompose : m.commentMode = false) (hconfirm : m.confirmMode = false) :
    (m.showDetail = true → m.detailItem.Title ≠ "" →
        Update W clock m (Msg.KeyMsg "c")
            = some ({ m with
                      commentMode := true
                      actionItem :=
                        ⟨m.detailItem.Title, m.detailItem.Repo, m.detailItem.Number,
                          m.detailItem.URL, m.detailItem.Kind⟩
                      textarea := W.SetValue (W.Focus m.textarea) "" }, Cmd.nil)
        ∧ Update W clock m (Msg.KeyMsg "x")
            = some ({ m with
                      confirmMode := true
                      actionItem :=
                        ⟨m.detailItem.Title, m.detailItem.Repo, m.detailItem.Number,
                          m.detailItem.URL, m.detailItem.Kind⟩
                      confirmTargetState :=
                        if m.detailItem.State = "closed" then "open" else "closed" }, Cmd.nil))
    ∧ (¬ (m.showDetail = true ∧ m.detailItem.Title ≠ "") →
        ∀ item, W.SelectedItem m.list = some item →
          Update W clock m (Msg.KeyMsg "c")
              = some ({ m with
                        commentMode := true
                        actionItem := item
                        textarea := W.SetValue (W.Focus m.textarea) "" }, Cmd.nil)
          ∧ Update W clock m (Msg.KeyMsg "x")
              = some ({ m with
                        confirmMode := true
                        actionItem := item
                        confirmTargetState := "closed" }, Cmd.nil))
    ∧ (¬ (m.showDetail = true ∧ m.detailItem.Title ≠ "") →
        W.SelectedItem m.list = none →
          Update W clock m (Msg.KeyMsg "c") = some (m, Cmd.nil)
          ∧ Update W clock m (Msg.KeyMsg "x") = some (m, Cmd.nil)) := by
  rw [Update_key_c W clock m hcompose hconfirm, Update_key_x W clock m hcompose hconfirm]
  refine ⟨fun hs ht => ⟨?_, ?_⟩, fun hnot item hsel => ⟨?_, ?_⟩, fun hnot hsel => ⟨?_, ?_⟩⟩
  · simp [keyComment, hs, ht, detailAsItem]
  · simp [keyClose, hs, ht, detailAsItem]
  · simp only [keyComment, if_neg hnot, hsel]
  · simp only [keyClose, if_neg hnot, hsel]
  · simp only [keyComment, if_neg hnot, hsel]
  · simp only [keyClose, if_neg hnot, hsel]

/-! ### Confirming a close or a reopen -/

/-- C13 on the code: "c" and "x" test the title of `m.detailItem` only, which
"enter" does not reset. After the detail of octo/repo#7 was loaded and left
with "esc", and "j", "enter" opened octo/docs#3, the detail of octo/docs#3 is
loading: the view shows "Loading details..." and no detail, and the selected
item is octo/docs#3. Yet "x" captures octo/repo#7 and "y" then closes it, and
"c" captures octo/repo#7 as well; the same happens when the detail fetch of
octo/docs#3 has failed and the view shows the error. -/
theorem C13_stale_detail_is_captured :
    (run Widgets.simple startModel secondDetailMsgs).map
        (fun r => (r.1.showDetail, r.1.detailLoading, Widgets.simple.SelectedItem r.1.list,
          viewBody Painter.plain CaseTables.plain (fun _ => 0) r.1, r.2.getLast?))
      = some (true, true, some otherItem, "| Loading details...",
          some (Cmd.fetchDetailCmd otherItem 1))
    ∧ (run Widgets.simple startModel (secondDetailMsgs ++ [Msg.KeyMsg "x"])).map
        (fun r => (r.1.confirmMode, r.1.actionItem, r.1.confirmTargetState))
      = some (true, sampleItem, "closed")
    ∧ (run Widgets.simple startModel
          (secondDetailMsgs ++ [Msg.KeyMsg "x", Msg.KeyMsg "y"])).map (fun r => r.2.getLast?)
      = some (some (Cmd.updateIssueStateCmd sampleItem "closed"))
    ∧ (run Widgets.simple startModel (secondDetailMsgs ++ [Msg.KeyMsg "c"])).map
        (fun r => (r.1.commentMode, r.1.actionItem))
      = some (true, sampleItem)
    ∧ (run Widgets.simple startModel
          (secondDetailMsgs ++ [Msg.detailResult detail.zero (some "timeout")])).map
        (fun r => (Widgets.simple.SelectedItem r.1.list,
          viewBody Painter.plain CaseTables.plain (fun _ => 0) r.1))
      = some (some otherItem, "Error loading details: timeout")
    ∧ (run Widgets.simple startModel
          (secondDetailMsgs
            ++ [Msg.detailResult detail.zero (some "timeout"), Msg.KeyMsg "x"])).map
        (fun r => (r.1.confirmMode, r.1.actionItem))
      = some (true, sampleItem)
    ∧ sampleItem ≠ otherItem :=
  ⟨rfl, rfl, rfl, rfl, rfl, rfl, by decide⟩

theorem mode_of_some_eq {W : Widgets} {m m0 m1 : model W} {c0 c : Cmd}
    (h : some (m0, c0) = some (m1, c)) (hstep : ModeStep m m0) : ModeStep m m1 := by
  simp only [Option.some.injEq, Prod.mk.injEq] at h
  obtain ⟨rfl, rfl⟩ := h
  exact hstep

theorem ModeInv_of_comment_off {W : Widgets} (m : model W) (h : m.commentMode = false) :
    ModeInv m := by
  intro hboth
  rw [h] at hboth
  exact absurd hboth.1 (by decide)

theorem ModeInv_of_confirm_off {W : Widgets} (m : model W) (h : m.confirmMode = false) :
    ModeInv m := by
  intro hboth
  rw [h] at hboth
  exact absurd hboth.2 (by decide)

theorem updateCompose_modes (W : Widgets) (m m1 : model W) (key : String) (c : Cmd)
    (hinv : ModeInv m) (h : updateCompose W m key = some (m1, c)) : ModeStep m m1 := by
  unfold updateCompose at h
  split_ifs at h
  · exact mode_of_some_eq h ⟨ModeInv_of_comment_off _ rfl, fun _ => rfl⟩
  · exact mode_of_some_eq h ⟨hinv, fun _ => rfl⟩
  · exact mode_of_some_eq h ⟨ModeInv_of_comment_off _ rfl, fun _ => rfl⟩
  · exact mode_of_some_eq h ⟨hinv, fun _ => rfl⟩

theorem updateConfirm_modes (W : Widgets) (m m1 : model W) (key : String) (c : Cmd)
    (hinv : ModeInv m) (h : updateConfirm W m key = some (m1, c)) : ModeStep m m1 := by
  unfold updateConfirm at h
  split_ifs at h
  · exact mode_of_some_eq h ⟨ModeInv_of_confirm_off _ rfl, fun _ => rfl⟩
  · exact mode_of_some_eq h ⟨ModeInv_of_confirm_off _ rfl, fun _ => rfl⟩
  · exact mode_of_some_eq h ⟨hinv, fun _ => rfl⟩

theorem modes_off_ModeStep {W : Widgets} (m m0 : model W)
    (hc : m.commentMode = false) (hf : m.confirmMode = false)
    (h0 : m0.commentMode = false ∨ m0.confirmMode = false) : ModeStep m m0 := by
  refine ⟨?_, fun hmode => ?_⟩
  · rcases h0 with h0 | h0
    · exact ModeInv_of_comment_off _ h0
    · exact ModeInv_of_confirm_off _ h0
  · rw [hc, hf] at hmode
    rcases hmode with h | h <;> exact absurd h (by decide)

theorem key_modes (W : Widgets) (m m1 : model W) (c : Cmd)
    (hc : m.commentMode = false) (hf : m.confirmMode = false) :
    (keyEsc W m = some (m1, c) → ModeStep m m1)
    ∧ (keyDown W m = some (m1, c) → ModeStep m m1)
    ∧ (keyUp W m = some (m1, c) → ModeStep m m1)
    ∧ (keyRefresh W m = some (m1, c) → ModeStep m m1)
    ∧ (keyFilter W m = some (m1, c) → ModeStep m m1)
    ∧ (keyTab W m = some (m1, c) → ModeStep m m1)
    ∧ (keyComment W m = some (m1, c) → ModeStep m m1)
    ∧ (keyNext W m = some (m1, c) → ModeStep m m1)
    ∧ (keyPrev W m = some (m1, c) → ModeStep m m1)
    ∧ (keyClose W m = some (m1, c) → ModeStep m m1)
    ∧ (keyOpen W m = some (m1, c) → ModeStep m m1)
    ∧ (keyEnter W m = some (m1, c) → ModeStep m m1) := by
  have hoff : ∀ m0 : model W, m0.commentMode = false ∨ m0.confirmMode = false → ModeStep m m0 :=
    fun m0 h0 => modes_off_ModeStep m m0 hc hf h0
  refine ⟨fun h => ?_, fun h => ?_, fun h => ?_, fun h => ?_, fun h => ?_, fun h => ?_,
    fun h => ?_, fun h => ?_, fun h => ?_, fun h => ?_, fun h => ?_, fun h => ?_⟩
  · unfold keyEsc updateList at h
    split_ifs at h <;> exact mode_of_some_eq h (hoff _ (Or.inl hc))
  · unfold keyDown at h
    split_ifs at h <;> exact mode_of_some_eq h (hoff _ (Or.inl hc))
  · unfold keyUp at h
    split_ifs at h <;> exact mode_of_some_eq h (hoff _ (Or.inl hc))
  · unfold keyRefresh at h
    split_ifs at h
    · split at h <;> exact mode_of_some_eq h (hoff _ (Or.inl hc))
    · simp only [Option.map_eq_some'] at h
      obtain ⟨c0, -, h⟩ := h
      exact mode_of_some_eq (congrArg some h) (hoff _ (Or.inl hc))
  · unfold keyFilter at h
    split_ifs at h
    · simp only [Option.bind_eq_some, Option.map_eq_some'] at h
      obtain ⟨i, -, c0, -, h⟩ := h
      exact mode_of_some_eq (congrArg some h) (hoff _ (Or.inl hc))
    · exact mode_of_some_eq h (hoff _ (Or.inl hc))
  · unfold keyTab at h
    split_ifs at h
    · simp only [Option.bind_eq_some, Option.map_eq_some'] at h
      obtain ⟨i, -, c0, -, h⟩ := h
      exact mode_of_some_eq (congrArg some h) (hoff _ (Or.inl hc))
    · exact mode_of_some_eq h (hoff _ (Or.inl hc))
  · unfold keyComment at h
    split_ifs at h
    · exact mode_of_some_eq h (hoff _ (Or.inr hf))
    · split at h
      · exact mode_of_some_eq h (hoff _ (Or.inr hf))
      · exact mode_of_some_eq h (hoff _ (Or.inl hc))
  · unfold keyNext at h
    split_ifs at h <;> exact mode_of_some_eq h (hoff _ (Or.inl hc))
  · unfold keyPrev at h
    split_ifs at h <;> exact mode_of_some_eq h (hoff _ (Or.inl hc))
  · unfold keyClose at h
    split_ifs at h
    · exact mode_of_some_eq h (hoff _ (Or.inl hc))
    · exact mode_of_some_eq h (hoff _ (Or.inl hc))
    · split at h <;> exact mode_of_some_eq h (hoff _ (Or.inl hc))
  · unfold keyOpen at h
    split at h <;> exact mode_of_some_eq h (hoff _ (Or.inl hc))
  · unfold keyEnter at h
    split at h <;> exact mode_of_some_eq h (hoff _ (Or.inl hc))

theorem updateKey_modes (W : Widgets) (m m1 : model W) (key : String) (c : Cmd)
    (hc : m.commentMode = false) (hf : m.confirmMode = false)
    (h : updateKey W m key = some (m1, c)) : ModeStep m m1 := by
  have ho := key_modes W m m1 c hc hf
  unfold updateKey at h
  by_cases h1 : key = "ctrl+c" ∨ key = "q"
  · rw [if_pos h1] at h
    exact mode_of_some_eq h (modes_off_ModeStep m m hc hf (Or.inl hc))
  rw [if_neg h1] at h
  by_cases h2 : key = "esc"
  · rw [if_pos h2] at h
    exact ho.1 h
  rw [if_neg h2] at h
  by_cases h3 : key = "j" ∨ key = "down"
  · rw [if_pos h3] at h
    exact ho.2.1 h
  rw [if_neg h3] at h
  by_cases h4 : key = "k" ∨ key = "up"
  · rw [if_pos h4] at h
    exact ho.2.2.1 h
  rw [if_neg h4] at h
  by_cases h5 : key = "r"
  · rw [if_pos h5] at h
    exact ho.2.2.2.1 h
  rw [if_neg h5] at h
  by_cases h6 : key = "f"
  · rw [if_pos h6] at h
    exact ho.2.2.2.2.1 h
  rw [if_neg h6] at h
  by_cases h7 : key = "tab"
  · rw [if_pos h7] at h
    exact ho.2.2.2.2.2.1 h
  rw [if_neg h7] at h
  by_cases h8 : key = "c"
  · rw [if_pos h8] at h
    exact ho.2.2.2.2.2.2.1 h
  rw [if_neg h8] at h
  by_cases h9 : key = "n"
  · rw [if_pos h9] at h
    exact ho.2.2.2.2.2.2.2.1 h
  rw [if_neg h9] at h
  by_cases h10 : key = "p"
  · rw [if_pos h10] at h
    exact ho.2.2.2.2.2.2.2.2.1 h
  rw [if_neg h10] at h
  by_cases h11 : key = "x"
  · rw [if_pos h11] at h
    exact ho.2.2.2.2.2.2.2.2.2.1 h
  rw [if_neg h11] at h
  by_cases h12 : key = "o"
  · rw [if_pos h12] at h
    exact ho.2.2.2.2.2.2.2.2.2.2.1 h
  rw [if_neg h12] at h
  by_cases h13 : key = "enter"
  · rw [if_pos h13] at h
    exact ho.2.2.2.2.2.2.2.2.2.2.2 h
  rw [if_neg h13] at h
  exact mode_of_some_eq h (modes_off_ModeStep m _ hc hf (Or.inl hc))

/-- One step of `Update` never sets both mode flags, and leaves `showDetail`
alone while a mode flag is set. -/
theorem Update_modes (W : Widgets) (clock : Nat → Time) (m m1 : model W) (msg : Msg) (c : Cmd)
    (hinv : ModeInv m) (h : Update W clock m msg = some (m1, c)) : ModeStep m m1 := by
  have hsame : ModeStep m m := ⟨hinv, fun _ => rfl⟩
  cases msg with
  | WindowSizeMsg w hgt => exact mode_of_some_eq h ⟨hinv, fun _ => rfl⟩
  | KeyMsg key =>
    simp only [Update] at h
    by_cases hc : m.commentMode = true
    · rw [if_pos hc] at h
      exact updateCompose_modes W m m1 key c hinv h
    · rw [if_neg hc] at h
      by_cases hf : m.confirmMode = true
      · rw [if_pos hf] at h
        exact updateConfirm_modes W m m1 key c hinv h
      · rw [if_neg hf] at h
        exact updateKey_modes W m m1 key c (by simpa using hc) (by simpa using hf) h
  | fetchResult items err => cases err <;> exact mode_of_some_eq h ⟨hinv, fun _ => rfl⟩
  | detailResult item err => cases err <;> exact mode_of_some_eq h ⟨hinv, fun _ => rfl⟩
  | commentResult err =>
    cases err with
    | some e => exact mode_of_some_eq h ⟨hinv, fun _ => rfl⟩
    | none =>
      simp only [Update] at h
      split_ifs at h <;> exact mode_of_some_eq h ⟨hinv, fun _ => rfl⟩
  | stateResult state err =>
    cases err with
    | some e => exact mode_of_some_eq h ⟨hinv, fun _ => rfl⟩
    | none =>
      cases hcmd : activeFetchCmd W m with
      | none => simp [Update, hcmd] at h
      | some c0 =>
        simp only [Update, hcmd, Option.map_some'] at h
        split_ifs at h <;> exact mode_of_some_eq h ⟨hinv, fun _ => rfl⟩
  | TickMsg id => exact mode_of_some_eq h ⟨hinv, fun _ => rfl⟩
  | other id => exact mode_of_some_eq h ⟨hinv, fun _ => rfl⟩

theorem Reach_modes (W : Widgets) (m : model W) (pages : List Int) (h : Reach W m pages) :
    ModeInv m := by
  induction h with
  | init l styles => exact ModeInv_of_comment_off _ rfl
  | step clock msg m1 c _ _ hupd ih => exact (Update_modes W clock _ m1 msg c ih hupd).1

theorem one_view_active {W : Widgets} (m : model W) (h : ModeInv m) :
    [listActive m, detailActive m, composeActive m, confirmActive m].count true = 1 := by
  unfold ModeInv at h
  unfold listActive detailActive composeActive confirmActive
  cases hs : m.showDetail <;> cases hc : m.commentMode <;> cases hf : m.confirmMode <;>
    simp_all

/-- C14. In every state reachable from `newModel`, `commentMode` and
`confirmMode` are not both true, so exactly one of the list view, the detail
view, the compose view and the confirm view is active. Entering the compose
view with "c" and cancelling with "esc", or entering the confirm view with "x"
and declining with "n" or "esc", ends outside both modes with the `showDetail`
of before; and no message that arrives while a mode flag is set changes
`showDetail`. -/
theorem C14_one_view_active (W : Widgets) :
    (∀ m pages, Reach W m pages →
        ¬ (m.commentMode = true ∧ m.confirmMode = true)
        ∧ [listActive m, detailActive m, composeActive m, confirmActive m].count true = 1)
    ∧ (∀ (clock : Nat → Time) (m m1 : model W) (c : Cmd),
        m.commentMode = false → m.confirmMode = false →
        Update W clock m (Msg.KeyMsg "c") = some (m1, c) → m1.commentMode = true →
          m1.showDetail = m.showDetail ∧ m1.confirmMode = false
          ∧ Update W clock m1 (Msg.KeyMsg "esc")
              = some ({ m1 with
                        commentMode := false
                        textarea := W.SetValue (W.Blur m1.textarea) "" }, Cmd.nil))
    ∧ (∀ (clock : Nat → Time) (m m1 : model W) (c : Cmd),
        m.commentMode = false → m.confirmMode = false →
        Update W clock m (Msg.KeyMsg "x") = some (m1, c) → m1.confirmMode = true →
          m1.showDetail = m.showDetail ∧ m1.commentMode = false
          ∧ Update W clock m1 (Msg.KeyMsg "n") = some ({ m1 with confirmMode := false }, Cmd.nil)
          ∧ Update W clock m1 (Msg.KeyMsg "esc")
              = some ({ m1 with confirmMode := false }, Cmd.nil))
    ∧ (∀ (clock : Nat → Time) (m m1 : model W) (msg : Msg) (c : Cmd) (pages : List Int),
        Reach W m pages → (m.commentMode = true ∨ m.confirmMode = true) →
        Update W clock m msg = some (m1, c) → m1.showDetail = m.showDetail) := by
  refine ⟨fun m pages hreach => ?_, fun clock m m1 c hc hf hupd hin => ?_,
    fun clock m m1 c hc hf hupd hin => ?_, fun clock m m1 msg c pages hreach hmode hupd => ?_⟩
  · exact ⟨Reach_modes W m pages hreach, one_view_active m (Reach_modes W m pages hreach)⟩
  · rw [Update_key_c W clock m hc hf] at hupd
    have hfacts : m1.showDetail = m.showDetail ∧ m1.confirmMode = false := by
      unfold keyComment at hupd
      split_ifs at hupd
      · simp only [Option.some.injEq, Prod.mk.injEq] at hupd
        obtain ⟨rfl, rfl⟩ := hupd
        exact ⟨rfl, hf⟩
      · split at hupd <;>
          · simp only [Option.some.injEq, Prod.mk.injEq] at hupd
            obtain ⟨rfl, rfl⟩ := hupd
            exact ⟨rfl, hf⟩
    refine ⟨hfacts.1, hfacts.2, ?_⟩
    simp [Update, hin, updateCompose]
  · rw [Update_key_x W clock m hc hf] at hupd
    have hfacts : m1.showDetail = m.showDetail ∧ m1.commentMode = false := by
      unfold keyClose at hupd
      split_ifs at hupd
      · simp only [Option.some.injEq, Prod.mk.injEq] at hupd
        obtain ⟨rfl, rfl⟩ := hupd
        exact ⟨rfl, hc⟩
      · simp only [Option.some.injEq, Prod.mk.injEq] at hupd
        obtain ⟨rfl, rfl⟩ := hupd
        exact ⟨rfl, hc⟩
      · split at hupd <;>
          · simp only [Option.some.injEq, Prod.mk.injEq] at hupd
            obtain ⟨rfl, rfl⟩ := hupd
            exact ⟨rfl, hc⟩
    refine ⟨hfacts.1, hfacts.2, ?_, ?_⟩
    · simp [Update, hfacts.2, hin, updateConfirm]
    · simp [Update, hfacts.2, hin, updateConfirm]
  · exact (Update_modes W clock m m1 msg c (Reach_modes W m pages hreach) hupd).2 hmode

/-- A run of C14: the loaded detail view of the sample item is reachable, so
exactly one view is active there (the detail view). -/
theorem C14_one_view_active_witness :
    ¬ (detailViewModel.commentMode = true ∧ detailViewModel.confirmMode = true)
    ∧ [listActive detailViewModel, detailActive detailViewModel, composeActive detailViewModel,
        confirmActive detailViewModel].count true = 1 :=
  (C14_one_view_active Widgets.simple).1 detailViewModel [1] detailViewModel_reach

/-! ### Failed results -/

/-- C15. A failed `fetchResult`, `detailResult`, `commentResult` or
`stateResult` clears the loading flag of its operation (`loading`,
`detailLoading`, `actionLoading`), sets the status to "Error: " followed by the
error text with `statusOverride`, records the error of a search or a detail
fetch, and issues no command; the list, the detail item, `showDetail`,
`commentMode` and `confirmMode` stay as they are. -/
theorem C15_failed_result_keeps_data (W : Widgets) (clock : Nat → Time) (m : model W)
    (e : String) (items : List issueItem) (item : detail) (state : String) :
    Update W clock m (Msg.fetchResult items (some e))
        = some ({ m with loading := false, err := some e, status := "Error: " ++ e,
                         statusOverride := true }, Cmd.nil)
    ∧ Update W clock m (Msg.detailResult item (some e))
        = some ({ m with detailLoading := false, detailErr := some e, status := "Error: " ++ e,
                         statusOverride := true }, Cmd.nil)
    ∧ Update W clock m (Msg.commentResult (some e))
        = some ({ m with actionLoading := false, status := "Error: " ++ e,
                         statusOverride := true }, Cmd.nil)
    ∧ Update W clock m (Msg.stateResult state (some e))
        = some ({ m with actionLoading := false, status := "Error: " ++ e,
                         statusOverride := true }, Cmd.nil)
    ∧ (∀ msg ∈ [Msg.fetchResult items (some e), Msg.detailResult item (some e),
          Msg.commentResult (some e), Msg.stateResult state (some e)],
        ∃ m1, Update W clock m msg = some (m1, Cmd.nil)
          ∧ m1.list = m.list ∧ m1.detailItem = m.detailItem ∧ m1.status = "Error: " ++ e
          ∧ m1.showDetail = m.showDetail ∧ m1.commentMode = m.commentMode
          ∧ m1.confirmMode = m.confirmMode) := by
  refine ⟨rfl, rfl, rfl, rfl, fun msg hmsg => ?_⟩
  simp only [List.mem_cons, List.mem_singleton, List.not_mem_nil, or_false] at hmsg
  rcases hmsg with rfl | rfl | rfl | rfl <;> exact ⟨_, rfl, rfl, rfl, rfl, rfl, rfl, rfl⟩

/-! ### Relative times -/

/-- C16 on the code: the number of days is `int(d.Hours() / 24)`, computed in
float64, not the integer quotient. For a timestamp that is 4104 hours less one
nanosecond old (170 days 23:59:59.999999999), `d.Hours()` is
`float64(4103) + float64(3599999999999) / 3.6e12`, which rounds to 4104, and
`humanizeSince` returns "171d ago" although `floor(d / 24h)` is 170; a
microsecond earlier it returns "170d ago". The zero timestamp and every `d`
below a minute, negative ones too, give "just now". -/
theorem C16_day_count_rounds_up :
    timeSince (63900000000000000000 + (4104 * Hour - 1)) 63900000000000000000
        = 4104 * Hour - 1
    ∧ (4104 * Hour - 1) / (24 * Hour) = 170
    ∧ (hoursFloat (4104 * Hour - 1).toNat).1 = 4104 * (hoursFloat (4104 * Hour - 1).toNat).2
    ∧ humanizeSince (63900000000000000000 + (4104 * Hour - 1)) 63900000000000000000
        = "171d ago"
    ∧ humanizeSince (63900000000000000000 + (4104 * Hour - 1000)) 63900000000000000000
        = "170d ago"
    ∧ (∀ now : Time, humanizeSince now 0 = "just now")
    ∧ (∀ now t : Time, timeSince now t < Minute → humanizeSince now t = "just now") := by
  refine ⟨by decide, by decide, by decide, by decide, by decide, fun now => rfl,
    fun now t h => ?_⟩
  simp [humanizeSince, h]

/-! ### The status line -/

/-- C17. With a non-zero width (and the filter index in range) `View` is the
title, the tabs, the body and the footer `help ++ "\n" ++ status`, and the
status text follows the precedence of the code: when `m.err` is set or
`statusOverride` is true it is `m.status` (in the error style when it starts
with "Error:", after the spinner while a flag is set), never the computed line;
when `statusOverride` is false, `lastUpdated` is non-zero, `loading` is false
and `m.err` is nil it is the computed line "Loaded N items • updated T" with N
the number of list items; in every other case it is `m.status` again. -/
theorem C17_status_line_precedence (W : Widgets) (P : Painter W) (ct : CaseTables)
    (clock : Nat → Time) (m : model W) (f : filter)
    (hwidth : m.width ≠ 0) (hf : index m.filters m.filterIndex = some f) :
    View P ct clock m
        = some (P.JoinVertical
            [ P.Render m.styles StyleName.Title "GitHub Inbox" ++ "  ·  "
                ++ P.Render m.styles StyleName.Filter f.Name,
              renderTabs P tabs m.tabIndex m.styles,
              viewBody P ct clock m,
              viewHelp P m ++ "\n" ++ viewStatus P clock m ])
    ∧ ((m.err ≠ none ∨ m.statusOverride = true) →
        viewStatus P clock m
          = (if m.loading || m.detailLoading || m.actionLoading then
              P.spinnerView m.spinner ++ " " else "")
            ++ (if strings.HasPrefix m.status "Error:" then
                  P.Render m.styles StyleName.StatusErr m.status
                else P.Render m.styles StyleName.Status m.status))
    ∧ ((m.statusOverride = false ∧ m.lastUpdated ≠ 0 ∧ m.loading = false ∧ m.err = none) →
        viewStatus P clock m
          = P.Render m.styles StyleName.Status
              ("Loaded " ++ toString ((W.Items m.list).length : Int) ++ " items • updated "
                ++ humanizeSince (clock 0) m.lastUpdated))
    ∧ (¬ (m.statusOverride = false ∧ m.lastUpdated ≠ 0 ∧ m.loading = false ∧ m.err = none) →
        viewStatus P clock m
          = (if m.loading || m.detailLoading || m.actionLoading then
              P.spinnerView m.spinner ++ " " else "")
            ++ (if strings.HasPrefix m.status "Error:" then
                  P.Render m.styles StyleName.StatusErr m.status
                else P.Render m.styles StyleName.Status m.status)) := by
  have hnot : ¬ (m.statusOverride = false ∧ m.lastUpdated ≠ 0 ∧ m.loading = false
        ∧ m.err = none) →
      viewStatus P clock m
        = (if m.loading || m.detailLoading || m.actionLoading then
            P.spinnerView m.spinner ++ " " else "")
          ++ (if strings.HasPrefix m.status "Error:" then
                P.Render m.styles StyleName.StatusErr m.status
              else P.Render m.styles StyleName.Status m.status) := by
    intro hc
    have hcond : (!m.statusOverride && !decide (m.lastUpdated = 0) && !m.loading
        && decide (m.err = none)) = false := by
      by_contra hne
      simp only [Bool.not_eq_false, Bool.and_eq_true, Bool.not_eq_true', decide_eq_false_iff_not,
        decide_eq_true_eq] at hne
      exact hc ⟨hne.1.1.1, hne.1.1.2, hne.1.2, hne.2⟩
    unfold viewStatus
    simp only [hcond]
    by_cases hl : (m.loading || m.detailLoading || m.actionLoading) = true
    · simp [hl]
    · simp [hl]
  refine ⟨?_, fun h => hnot (fun hc => ?_), fun hc => ?_, hnot⟩
  · simp [View, hwidth, hf]
  · rcases h with h | h
    · exact h hc.2.2.2
    · rw [hc.1] at h
      exact absurd h (by decide)
  · obtain ⟨h1, h2, h3, h4⟩ := hc
    simp [viewStatus, h1, h2, h3, h4]

/-- A run of C17: the loaded list of two items, painted without styles just
after the load, shows the computed line. -/
theorem C17_status_line_precedence_witness :
    paintedListModel.width ≠ 0
    ∧ index paintedListModel.filters paintedListModel.filterIndex
        = some ⟨"Open", "is:open archived:false involves:@me"⟩
    ∧ viewStatus Painter.plain (fun _ => 5) paintedListModel
        = "Loaded 2 items • updated just now" :=
  ⟨by decide, rfl,
   (C17_status_line_precedence Widgets.simple Painter.plain CaseTables.plain (fun _ => 5)
      paintedListModel ⟨"Open", "is:open archived:false involves:@me"⟩ (by decide)
      rfl).2.2.1 ⟨rfl, by decide, rfl, rfl⟩⟩

/-! ### The metadata line of an issue -/

/-- A string that starts with a non-empty string is not empty. -/
theorem append_ne_empty_of_left (a b : String) (ha : a ≠ "") : a ++ b ≠ "" := by
  intro h
  have hd := congrArg String.data h
  simp only [String.data_append, List.append_eq_nil] at hd
  exact ha (String.ext hd.1)

/-- C18. For a loaded detail of kind "Issue" the metadata line is
"labels: L • assignees: A", where `formatList` gives "none" for an empty list
and the names joined by ", " otherwise; `detailView` renders the title, the
header, this line (and no PR block), the body and the comments; and for a
closed issue with labels ["bug", "P1"] and no assignees the line is exactly
"labels: bug, P1 • assignees: none". -/
theorem C18_issue_metadata_line (W : Widgets) (P : Painter W) (clock : Nat → Time) (m : model W)
    (hloading : m.detailLoading = false) (herr : m.detailErr = none)
    (htitle : m.detailItem.Title ≠ "") (hkind : m.detailItem.Kind = "Issue") :
    detailExtra m.detailItem
        = "labels: " ++ formatList m.detailItem.Labels ++ " • assignees: "
            ++ formatList m.detailItem.Assignees
    ∧ (∀ values : List String,
        formatList values = if values = [] then "none" else strings.Join values ", ")
    ∧ detailView P clock m
        = P.Render m.styles StyleName.AccentText m.detailItem.Title
          ++ "\n"
          ++ (P.Render m.styles StyleName.MetaText
                (m.detailItem.Repo ++ " • " ++ m.detailItem.Kind ++ " • #"
                  ++ toString m.detailItem.Number ++ " • " ++ m.detailItem.State ++ " • "
                  ++ toString m.detailItem.Comments ++ " comments • updated "
                  ++ humanizeSince (clock 1) m.detailItem.Updated)
              ++ ("\n" ++ P.Render m.styles StyleName.MutedText
                    ("labels: " ++ formatList m.detailItem.Labels ++ " • assignees: "
                      ++ formatList m.detailItem.Assignees)))
          ++ "\n\n"
          ++ P.RenderWidth m.styles StyleName.BodyText (m.width - 2)
              (strings.TrimSpace m.detailItem.Body)
          ++ "\n\n"
          ++ renderComments P (fun i => clock (i + 2)) m.detailItem.CommentList
              m.detailItem.CommentPage m.detailItem.HasNextComments
              m.detailItem.HasPrevComments (m.width - 2) m.styles
    ∧ detailExtra
        { detail.zero with
          Title := "Crash on start", State := "closed", Kind := "Issue"
          Labels := collectNames ["bug", "P1"], Assignees := collectNames [] }
        = "labels: bug, P1 • assignees: none" := by
  have hextra : detailExtra m.detailItem
      = "labels: " ++ formatList m.detailItem.Labels ++ " • assignees: "
          ++ formatList m.detailItem.Assignees := by
    have hne : ¬ ("Issue" = "PR") := by decide
    simp [detailExtra, hkind, hne]
  refine ⟨hextra, fun values => ?_, ?_, by decide⟩
  · cases values <;> simp [formatList]
  · have hne : "labels: " ++ formatList m.detailItem.Labels ++ " • assignees: "
        ++ formatList m.detailItem.Assignees ≠ "" := by
      simp only [String.append_assoc]
      exact append_ne_empty_of_left _ _ (by decide)
    unfold detailView
    simp only [hloading, herr, hextra, Bool.false_eq_true, if_false, htitle, if_pos hne]

/-- A run of C18: the detail view of a closed issue with the labels "bug" and
"P1" and no assignee. -/
theorem C18_issue_metadata_line_witness :
    issueDetailModel.detailLoading = false ∧ issueDetailModel.detailErr = none
    ∧ issueDetailModel.detailItem.Title ≠ "" ∧ issueDetailModel.detailItem.Kind = "Issue"
    ∧ detailExtra issueDetailModel.detailItem = "labels: bug, P1 • assignees: none" :=
  ⟨rfl, rfl, by decide, rfl,
   (C18_issue_metadata_line Widgets.simple Painter.plain (fun _ => 5) issueDetailModel rfl rfl
      (by decide) rfl).1⟩

/-! ### The loading flags and the keys -/

/-- Scanning a word of non-space characters puts it behind the word in progress. -/
theorem fieldsRunes_append_word (t rest cur : List Char)
    (ht : ∀ c ∈ t, unicode.IsSpace c = false) :
    strings.fieldsRunes (t ++ rest) cur = strings.fieldsRunes rest (t.reverse ++ cur) := by
  induction t generalizing cur with
  | nil => simp
  | cons c t ih =>
    have hc : unicode.IsSpace c = false := ht c (List.mem_cons_self c t)
    have ht2 : ∀ x ∈ t, unicode.IsSpace x = false := fun x hx => ht x (List.mem_cons_of_mem c hx)
    have hstep : strings.fieldsRunes (c :: (t ++ rest)) cur
        = strings.fieldsRunes (t ++ rest) (c :: cur) := by
      simp only [strings.fieldsRunes, hc, Bool.false_eq_true, if_false]
    rw [List.cons_append, hstep, ih (c :: cur) ht2]
    simp

/-- The fields of non-empty space-free words joined by single spaces are the
words. -/
theorem fieldsRunes_intercalate (toks : List (List Char)) (hne : toks ≠ [])
    (hgood : ∀ t ∈ toks, t ≠ [] ∧ ∀ c ∈ t, unicode.IsSpace c = false) :
    strings.fieldsRunes ([' '].intercalate toks) [] = toks := by
  induction toks with
  | nil => exact absurd rfl hne
  | cons t ts ih =>
    obtain ⟨htne, htgood⟩ := hgood t (List.mem_cons_self t ts)
    have hrev : t.reverse.isEmpty = false := by
      cases t with
      | nil => exact absurd rfl htne
      | cons a l => simp
    cases ts with
    | nil =>
      have h1 : [' '].intercalate [t] = t ++ [] := by
        simp [List.intercalate, List.intersperse]
      rw [h1, fieldsRunes_append_word t [] [] htgood]
      simp [strings.fieldsRunes, hrev]
    | cons t2 ts2 =>
      have ih2 := ih (by simp) (fun x hx => hgood x (List.mem_cons_of_mem t hx))
      rw [intercalate_cons_cons, List.append_assoc, fieldsRunes_append_word t _ [] htgood]
      have hsp : unicode.IsSpace ' ' = true := by decide
      have hstep : strings.fieldsRunes (' ' :: [' '].intercalate (t2 :: ts2)) (t.reverse ++ [])
          = (t.reverse ++ []).reverse
              :: strings.fieldsRunes ([' '].intercalate (t2 :: ts2)) [] := by
        simp only [strings.fieldsRunes, hsp, if_true, List.append_nil, hrev, Bool.false_eq_true,
          if_false]
      rw [List.singleton_append, hstep, ih2]
      simp

/-- Every field is non-empty and has no space character. -/
theorem fieldsRunes_good (s cur t : List Char) (hcur : ∀ c ∈ cur, unicode.IsSpace c = false)
    (ht : t ∈ strings.fieldsRunes s cur) : t ≠ [] ∧ ∀ c ∈ t, unicode.IsSpace c = false := by
  induction s generalizing cur with
  | nil =>
    cases cur with
    | nil => simp [strings.fieldsRunes] at ht
    | cons a l =>
      simp only [strings.fieldsRunes, List.isEmpty_cons, Bool.false_eq_true, if_false,
        List.mem_singleton] at ht
      subst ht
      refine ⟨by simp, fun c hc => hcur c (List.mem_reverse.1 hc)⟩
  | cons c cs ih =>
    by_cases hsp : unicode.IsSpace c = true
    · cases cur with
      | nil =>
        simp only [strings.fieldsRunes, hsp, List.isEmpty_nil, if_true] at ht
        exact ih [] (by simp) ht
      | cons a l =>
        simp only [strings.fieldsRunes, hsp, if_true, List.isEmpty_cons, Bool.false_eq_true,
          if_false, List.mem_cons] at ht
        rcases ht with ht | ht
        · subst ht
          refine ⟨by simp, fun x hx => hcur x (List.mem_reverse.1 hx)⟩
        · exact ih [] (by simp) ht
    · simp only [strings.fieldsRunes, hsp, Bool.false_eq_true, if_false] at ht
      refine ih (c :: cur) (fun x hx => ?_) ht
      rcases List.mem_cons.1 hx with h | h
      · rw [h]
        simpa using hsp
      · exact hcur x h

/-- Every token of `strings.Fields` is non-empty and has no space character. -/
theorem Fields_good (s t : String) (ht : t ∈ strings.Fields s) :
    t.data ≠ [] ∧ ∀ c ∈ t.data, unicode.IsSpace c = false := by
  simp only [strings.Fields, List.mem_map] at ht
  obtain ⟨r, hr, rfl⟩ := ht
  exact fieldsRunes_good s.data [] r (by simp) hr

/-- The tokens of non-empty space-free tokens joined by single spaces are the
tokens themselves. -/
theorem Fields_Join (toks : List String) (hne : toks ≠ [])
    (hgood : ∀ t ∈ toks, t.data ≠ [] ∧ ∀ c ∈ t.data, unicode.IsSpace c = false) :
    strings.Fields (strings.Join toks " ") = toks := by
  unfold strings.Fields strings.Join
  have hsp : (" " : String).data = [' '] := rfl
  rw [hsp]
  simp only
  rw [fieldsRunes_intercalate (toks.map String.data) (by simpa using hne)]
  · rw [List.map_map]
    have : (String.mk ∘ String.data) = id := rfl
    rw [this, List.map_id]
  · intro t ht
    obtain ⟨x, hx, rfl⟩ := List.mem_map.1 ht
    exact hgood x hx

/-- The loop of `applyTabQuery` appends the kept tokens to what it has. -/
theorem dropTypeQualifiers_foldl (ct : CaseTables) (tokens acc : List String) :
    tokens.foldl (fun filtered token =>
        if isTypeQualifierToken ct token then filtered else filtered ++ [token]) acc
      = acc ++ tokens.filter (fun t => !isTypeQualifierToken ct t) := by
  induction tokens generalizing acc with
  | nil => simp
  | cons x xs ih =>
    by_cases h : isTypeQualifierToken ct x = true
    · simp [h, ih]
    · simp [h, ih]

/-- The loop of `applyTabQuery` keeps the tokens that are no type qualifier, in
order. -/
theorem dropTypeQualifiers_eq (ct : CaseTables) (tokens : List String) :
    dropTypeQualifiers ct tokens = tokens.filter (fun t => !isTypeQualifierToken ct t) := by
  simp [dropTypeQualifiers, dropTypeQualifiers_foldl]

/-- The tokens of `applyTabQuery`'s result when the qualifier `qual` (a word
that is itself a type qualifier) is appended. -/
theorem Fields_tab_query (ct : CaseTables) (query qual : String)
    (hq1 : qual.data ≠ [] ∧ ∀ c ∈ qual.data, unicode.IsSpace c = false)
    (hq2 : isTypeQualifierToken ct qual = true) :
    strings.Fields (strings.Join (dropTypeQualifiers ct (strings.Fields query) ++ [qual]) " ")
        = (strings.Fields query).filter (fun t => !isTypeQualifierToken ct t) ++ [qual]
    ∧ dropTypeQualifiers ct
        ((strings.Fields query).filter (fun t => !isTypeQualifierToken ct t) ++ [qual])
        = (strings.Fields query).filter (fun t => !isTypeQualifierToken ct t)
    ∧ ((strings.Fields query).filter (fun t => !isTypeQualifierToken ct t) ++ [qual]).filter
          (isTypeQualifierToken ct) = [qual] := by
  refine ⟨?_, ?_, ?_⟩
  · rw [dropTypeQualifiers_eq]
    apply Fields_Join
    · simp
    · intro t ht
      rcases List.mem_append.1 ht with h | h
      · exact Fields_good query t (List.mem_filter.1 h).1
      · rw [List.mem_singleton] at h
        rw [h]
        exact hq1
  · rw [dropTypeQualifiers_eq, List.filter_append, List.filter_filter]
    simp [hq2]
  · rw [List.filter_append, List.filter_filter]
    simp [hq2]

/-- The branch "pr" of `applyTabQuery`. -/
theorem applyTabQuery_pr (ct : CaseTables) (query kind : String)
    (h : strings.ToLower ct kind = "pr") :
    applyTabQuery ct query kind
      = strings.Join (dropTypeQualifiers ct (strings.Fields query) ++ ["is:pr"]) " " := by
  simp [applyTabQuery, h]

/-- The branch "issue" of `applyTabQuery`. -/
theorem applyTabQuery_issue (ct : CaseTables) (query kind : String)
    (h : strings.ToLower ct kind = "issue") :
    applyTabQuery ct query kind
      = strings.Join (dropTypeQualifiers ct (strings.Fields query) ++ ["is:issue"]) " " := by
  have hne : ¬ ("issue" = "pr") := by decide
  simp [applyTabQuery, h, hne]

/-- C20. For a kind that is "pr" ignoring case, the tokens of
`applyTabQuery query kind` are the tokens of `query` that are no type qualifier
(is:pr, is:issue, is:pull-request, is:pullrequest, ignoring case), in order,
followed by "is:pr"; the result is these tokens joined by single spaces; its
only type qualifier is that one "is:pr"; and applying `applyTabQuery` again
with the same kind changes nothing. The same holds for "issue" and "is:issue".
For every other kind the query is returned unchanged. -/
theorem C20_applyTabQuery_tokens (ct : CaseTables) (query kind : String) :
    (strings.ToLower ct kind = "pr" →
        strings.Fields (applyTabQuery ct query kind)
            = (strings.Fields query).filter (fun t => !isTypeQualifierToken ct t) ++ ["is:pr"]
        ∧ applyTabQuery ct query kind
            = strings.Join
                ((strings.Fields query).filter (fun t => !isTypeQualifierToken ct t) ++ ["is:pr"])
                " "
        ∧ (strings.Fields (applyTabQuery ct query kind)).filter (isTypeQualifierToken ct)
            = ["is:pr"]
        ∧ applyTabQuery ct (applyTabQuery ct query kind) kind = applyTabQuery ct query kind)
    ∧ (strings.ToLower ct kind = "issue" →
        strings.Fields (applyTabQuery ct query kind)
            = (strings.Fields query).filter (fun t => !isTypeQualifierToken ct t) ++ ["is:issue"]
        ∧ applyTabQuery ct query kind
            = strings.Join
                ((strings.Fields query).filter (fun t => !isTypeQualifierToken ct t)
                  ++ ["is:issue"])
                " "
        ∧ (strings.Fields (applyTabQuery ct query kind)).filter (isTypeQualifierToken ct)
            = ["is:issue"]
        ∧ applyTabQuery ct (applyTabQuery ct query kind) kind = applyTabQuery ct query kind)
    ∧ (strings.ToLower ct kind ≠ "pr" → strings.ToLower ct kind ≠ "issue" →
        applyTabQuery ct query kind = query) := by
  refine ⟨fun h => ?_, fun h => ?_, fun h1 h2 => ?_⟩
  · obtain ⟨hf, hd, hc⟩ := Fields_tab_query ct query "is:pr" (by decide) rfl
    have hfields : strings.Fields (applyTabQuery ct query kind)
        = (strings.Fields query).filter (fun t => !isTypeQualifierToken ct t) ++ ["is:pr"] := by
      rw [applyTabQuery_pr ct query kind h]
      exact hf
    refine ⟨hfields, ?_, ?_, ?_⟩
    · rw [applyTabQuery_pr ct query kind h, dropTypeQualifiers_eq]
    · rw [hfields]
      exact hc
    · rw [applyTabQuery_pr ct (applyTabQuery ct query kind) kind h, hfields, hd,
        applyTabQuery_pr ct query kind h, dropTypeQualifiers_eq]
  · obtain ⟨hf, hd, hc⟩ := Fields_tab_query ct query "is:issue" (by decide) rfl
    have hfields : strings.Fields (applyTabQuery ct query kind)
        = (strings.Fields query).filter (fun t => !isTypeQualifierToken ct t)
            ++ ["is:issue"] := by
      rw [applyTabQuery_issue ct query kind h]
      exact hf
    refine ⟨hfields, ?_, ?_, ?_⟩
    · rw [applyTabQuery_issue ct query kind h, dropTypeQualifiers_eq]
    · rw [hfields]
      exact hc
    · rw [applyTabQuery_issue ct (applyTabQuery ct query kind) kind h, hfields, hd,
        applyTabQuery_issue ct query kind h, dropTypeQualifiers_eq]
  · simp [applyTabQuery, h1, h2]

/-- A run of C20: a query with two type qualifiers and a double space, on the
PR tab. -/
theorem C20_applyTabQuery_tokens_witness :
    strings.Fields
        (applyTabQuery CaseTables.plain "is:open  IS:PR archived:false is:pullrequest" "PR")
      = ["is:open", "archived:false", "is:pr"]
    ∧ applyTabQuery CaseTables.plain "is:open  IS:PR archived:false is:pullrequest" "PR"
      = "is:open archived:false is:pr" :=
  ⟨((C20_applyTabQuery_tokens CaseTables.plain
      "is:open  IS:PR archived:false is:pullrequest" "PR").1 rfl).1,
   ((C20_applyTabQuery_tokens CaseTables.plain
      "is:open  IS:PR archived:false is:pullrequest" "PR").1 rfl).2.1⟩

/-! ### A list search is a single search -/

/-- The kind of a built-in tab is "pr" or "issue". -/
theorem tab_kind (i : Int) (t : tab) (h : index tabs i = some t) :
    t.Kind = "pr" ∨ t.Kind = "issue" := by
  have hmem : t ∈ tabs := by
    unfold index at h
    split_ifs at h
    exact List.get?_mem h
  simp only [tabs, List.mem_cons, List.mem_singleton, List.not_mem_nil, or_false] at hmem
  rcases hmem with rfl | rfl
  · exact Or.inl rfl
  · exact Or.inr rfl

/-- The search of `activeFetchCmd` is for the kind of a built-in tab. -/
theorem activeFetchCmd_searches (W : Widgets) (m : model W) (c : Cmd)
    (h : activeFetchCmd W m = some c) :
    ∀ p ∈ searchesOf c, p.2 = "pr" ∨ p.2 = "issue" := by
  unfold activeFetchCmd at h
  cases hf : index m.filters m.filterIndex with
  | none => simp [hf] at h
  | some f =>
    cases ht : index tabs m.tabIndex with
    | none => simp [hf, ht] at h
    | some t =>
      simp [hf, ht] at h
      subst h
      intro p hp
      simp only [searchesOf, List.mem_singleton] at hp
      subst hp
      exact tab_kind _ t ht

/-- A step that ends in `some (m1, c)` with a command of no search. -/
theorem searches_of_some_eq {W : Widgets} {m1 m2 : model W} {c c2 : Cmd}
    (h : some (m2, c2) = some (m1, c)) (hc : searchesOf c2 = []) :
    ∀ p ∈ searchesOf c, p.2 = "pr" ∨ p.2 = "issue" := by
  simp only [Option.some.injEq, Prod.mk.injEq] at h
  obtain ⟨_, rfl⟩ := h
  simp [hc]

/-- A step that issues the search of `activeFetchCmd`. -/
theorem map_activeFetchCmd_searches (W : Widgets) (m0 m1 m2 : model W) (c : Cmd)
    (h : (activeFetchCmd W m0).map (fun c0 => (m2, c0)) = some (m1, c)) :
    ∀ p ∈ searchesOf c, p.2 = "pr" ∨ p.2 = "issue" := by
  simp only [Option.map_eq_some', Prod.mk.injEq] at h
  obtain ⟨c0, hc0, _, rfl⟩ := h
  exact activeFetchCmd_searches W m0 c0 hc0

/-- Each case of the key switch issues searches for the kinds of the built-in
tabs only. -/
theorem key_searches (W : Widgets) (m m1 : model W) (c : Cmd) :
    (keyEsc W m = some (m1, c) → ∀ p ∈ searchesOf c, p.2 = "pr" ∨ p.2 = "issue")
    ∧ (keyDown W m = some (m1, c) → ∀ p ∈ searchesOf c, p.2 = "pr" ∨ p.2 = "issue")
    ∧ (keyUp W m = some (m1, c) → ∀ p ∈ searchesOf c, p.2 = "pr" ∨ p.2 = "issue")
    ∧ (keyRefresh W m = some (m1, c) → ∀ p ∈ searchesOf c, p.2 = "pr" ∨ p.2 = "issue")
    ∧ (keyFilter W m = some (m1, c) → ∀ p ∈ searchesOf c, p.2 = "pr" ∨ p.2 = "issue")
    ∧ (keyTab W m = some (m1, c) → ∀ p ∈ searchesOf c, p.2 = "pr" ∨ p.2 = "issue")
    ∧ (keyComment W m = some (m1, c) → ∀ p ∈ searchesOf c, p.2 = "pr" ∨ p.2 = "issue")
    ∧ (keyNext W m = some (m1, c) → ∀ p ∈ searchesOf c, p.2 = "pr" ∨ p.2 = "issue")
    ∧ (keyPrev W m = some (m1, c) → ∀ p ∈ searchesOf c, p.2 = "pr" ∨ p.2 = "issue")
    ∧ (keyClose W m = some (m1, c) → ∀ p ∈ searchesOf c, p.2 = "pr" ∨ p.2 = "issue")
    ∧ (keyOpen W m = some (m1, c) → ∀ p ∈ searchesOf c, p.2 = "pr" ∨ p.2 = "issue")
    ∧ (keyEnter W m = some (m1, c) → ∀ p ∈ searchesOf c, p.2 = "pr" ∨ p.2 = "issue") := by
  refine ⟨fun h => ?_, fun h => ?_, fun h => ?_, fun h => ?_, fun h => ?_, fun h => ?_,
    fun h => ?_, fun h => ?_, fun h => ?_, fun h => ?_, fun h => ?_, fun h => ?_⟩
  · unfold keyEsc updateList at h
    split_ifs at h <;> exact searches_of_some_eq h (by simp [searchesOf])
  · unfold keyDown at h
    split_ifs at h <;> exact searches_of_some_eq h (by simp [searchesOf])
  · unfold keyUp at h
    split_ifs at h <;> exact searches_of_some_eq h (by simp [searchesOf])
  · unfold keyRefresh at h
    split_ifs at h
    · split at h <;> exact searches_of_some_eq h (by simp [searchesOf])
    · exact map_activeFetchCmd_searches W _ _ _ _ h
  · unfold keyFilter at h
    split_ifs at h
    · simp only [Option.bind_eq_some] at h
      obtain ⟨i, _, hi⟩ := h
      exact map_activeFetchCmd_searches W _ _ _ _ hi
    · exact searches_of_some_eq h (by simp [searchesOf])
  · unfold keyTab at h
    split_ifs at h
    · simp only [Option.bind_eq_some] at h
      obtain ⟨i, _, hi⟩ := h
      exact map_activeFetchCmd_searches W _ _ _ _ hi
    · exact searches_of_some_eq h (by simp [searchesOf])
  · unfold keyComment at h
    split_ifs at h
    · exact searches_of_some_eq h (by simp [searchesOf])
    · split at h <;> exact searches_of_some_eq h (by simp [searchesOf])
  · unfold keyNext at h
    split_ifs at h <;> exact searches_of_some_eq h (by simp [searchesOf])
  · unfold keyPrev at h
    split_ifs at h <;> exact searches_of_some_eq h (by simp [searchesOf])
  · unfold keyClose at h
    split_ifs at h
    · exact searches_of_some_eq h (by simp [searchesOf])
    · exact searches_of_some_eq h (by simp [searchesOf])
    · split at h <;> exact searches_of_some_eq h (by simp [searchesOf])
  · unfold keyOpen at h
    split at h <;> exact searches_of_some_eq h (by simp [searchesOf])
  · unfold keyEnter at h
    split at h <;> exact searches_of_some_eq h (by simp [searchesOf])

/-- The key switch issues searches for the kinds of the built-in tabs only. -/
theorem updateKey_searches (W : Widgets) (m m1 : model W) (key : String) (c : Cmd)
    (h : updateKey W m key = some (m1, c)) :
    ∀ p ∈ searchesOf c, p.2 = "pr" ∨ p.2 = "issue" := by
  have ho := key_searches W m m1 c
  unfold updateKey at h
  by_cases h1 : key = "ctrl+c" ∨ key = "q"
  · rw [if_pos h1] at h
    exact searches_of_some_eq h (by simp [searchesOf])
  rw [if_neg h1] at h
  by_cases h2 : key = "esc"
  · rw [if_pos h2] at h
    exact ho.1 h
  rw [if_neg h2] at h
  by_cases h3 : key = "j" ∨ key = "down"
  · rw [if_pos h3] at h
    exact ho.2.1 h
  rw [if_neg h3] at h
  by_cases h4 : key = "k" ∨ key = "up"
  · rw [if_pos h4] at h
    exact ho.2.2.1 h
  rw [if_neg h4] at h
  by_cases h5 : key = "r"
  · rw [if_pos h5] at h
    exact ho.2.2.2.1 h
  rw [if_neg h5] at h
  by_cases h6 : key = "f"
  · rw [if_pos h6] at h
    exact ho.2.2.2.2.1 h
  rw [if_neg h6] at h
  by_cases h7 : key = "tab"
  · rw [if_pos h7] at h
    exact ho.2.2.2.2.2.1 h
  rw [if_neg h7] at h
  by_cases h8 : key = "c"
  · rw [if_pos h8] at h
    exact ho.2.2.2.2.2.2.1 h
  rw [if_neg h8] at h
  by_cases h9 : key = "n"
  · rw [if_pos h9] at h
    exact ho.2.2.2.2.2.2.2.1 h
  rw [if_neg h9] at h
  by_cases h10 : key = "p"
  · rw [if_pos h10] at h
    exact ho.2.2.2.2.2.2.2.2.1 h
  rw [if_neg h10] at h
  by_cases h11 : key = "x"
  · rw [if_pos h11] at h
    exact ho.2.2.2.2.2.2.2.2.2.1 h
  rw [if_neg h11] at h
  by_cases h12 : key = "o"
  · rw [if_pos h12] at h
    exact ho.2.2.2.2.2.2.2.2.2.2.1 h
  rw [if_neg h12] at h
  by_cases h13 : key = "enter"
  · rw [if_pos h13] at h
    exact ho.2.2.2.2.2.2.2.2.2.2.2 h
  rw [if_neg h13] at h
  unfold updateList at h
  exact searches_of_some_eq h (by simp [searchesOf])

/-- Every step of the state machine issues searches for the kinds of the
built-in tabs only. -/
theorem Update_searches (W : Widgets) (clock : Nat → Time) (m m1 : model W) (msg : Msg) (c : Cmd)
    (h : Update W clock m msg = some (m1, c)) :
    ∀ p ∈ searchesOf c, p.2 = "pr" ∨ p.2 = "issue" := by
  cases msg with
  | WindowSizeMsg w hgt => exact searches_of_some_eq h (by simp [searchesOf])
  | KeyMsg key =>
    simp only [Update] at h
    split_ifs at h
    · unfold updateCompose at h
      split_ifs at h <;> exact searches_of_some_eq h (by simp [searchesOf])
    · unfold updateConfirm at h
      split_ifs at h <;> exact searches_of_some_eq h (by simp [searchesOf])
    · exact updateKey_searches W m m1 key c h
  | fetchResult items err =>
    cases err <;> exact searches_of_some_eq h (by simp [searchesOf])
  | detailResult item err =>
    cases err <;> exact searches_of_some_eq h (by simp [searchesOf])
  | commentResult err =>
    cases err with
    | some e => exact searches_of_some_eq h (by simp [searchesOf])
    | none =>
      simp only [Update] at h
      split_ifs at h <;> exact searches_of_some_eq h (by simp [searchesOf])
  | stateResult state err =>
    cases err with
    | some e => exact searches_of_some_eq h (by simp [searchesOf])
    | none =>
      cases hc : activeFetchCmd W m with
      | none => simp [Update, hc] at h
      | some c0 =>
        have hp0 := activeFetchCmd_searches W m c0 hc
        simp only [Update, hc, Option.map_some'] at h
        split_ifs at h <;>
        · simp only [Option.some.injEq, Prod.mk.injEq] at h
          obtain ⟨_, rfl⟩ := h
          simpa [searchesOf] using hp0
  | TickMsg id => exact searches_of_some_eq h (by simp [searchesOf])
  | other id =>
    simp only [Update, updateList] at h
    exact searches_of_some_eq h (by simp [searchesOf])

/-- The query of a list search for a built-in kind ends in the token "is:pr" or
"is:issue", and passes the type-qualifier test of `fetchIssuesWithFallback`. -/
theorem tab_query_qualified (ct : CaseTables) (query kind : String)
    (hk : kind = "pr" ∨ kind = "issue") :
    (strings.Contains (applyTabQuery ct query kind) "is:pr" = true
      ∨ strings.Contains (applyTabQuery ct query kind) "is:issue" = true)
    ∧ hasTypeQualifier ct (applyTabQuery ct query kind) = true := by
  rcases hk with rfl | rfl
  · have hmem : "is:pr" ∈ strings.Fields (applyTabQuery ct query "pr") := by
      rw [applyTabQuery_pr ct query "pr" rfl, (Fields_tab_query ct query "is:pr" (by decide) rfl).1]
      simp
    refine ⟨Or.inl ((Contains_iff _ _).2 (Fields_isInfix _ _ hmem)), ?_⟩
    have hc := Contains_ToLower_of_token ct _ "is:pr" "is:pr" hmem rfl
    simp [hasTypeQualifier, hc]
  · have hmem : "is:issue" ∈ strings.Fields (applyTabQuery ct query "issue") := by
      rw [applyTabQuery_issue ct query "issue" rfl,
        (Fields_tab_query ct query "is:issue" (by decide) rfl).1]
      simp
    refine ⟨Or.inr ((Contains_iff _ _).2 (Fields_isInfix _ _ hmem)), ?_⟩
    have hc := Contains_ToLower_of_token ct _ "is:issue" "is:issue" hmem rfl
    simp [hasTypeQualifier, hc]

/-- C21. Every list search the state machine starts, from `Init` or from a step
of `Update`, is a `fetchCmd` for the kind "pr" or "issue" of a built-in tab.
For every filter and each of these kinds the query `applyTabQuery f.Query kind`
contains "is:pr" or "is:issue" and passes the type-qualifier test, so
`fetchIssuesWithFallback` sends exactly one search, this query, and returns its
result without a merge; so `fetchCmd`, run with a token, sends exactly this one
search and returns its result as the `fetchResult` (without a token it sends
none and returns the error "GITHUB_TOKEN is required"). -/
theorem C21_list_search_is_single (ct : CaseTables) :
    (∀ (W : Widgets) (m : model W) (c : Cmd), Init W m = some c →
        ∀ p ∈ searchesOf c, p.2 = "pr" ∨ p.2 = "issue")
    ∧ (∀ (W : Widgets) (clock : Nat → Time) (m m1 : model W) (msg : Msg) (c : Cmd),
        Update W clock m msg = some (m1, c) →
          ∀ p ∈ searchesOf c, p.2 = "pr" ∨ p.2 = "issue")
    ∧ ∀ (f : filter) (kind : String), kind = "pr" ∨ kind = "issue" →
        (strings.Contains (applyTabQuery ct f.Query kind) "is:pr" = true
          ∨ strings.Contains (applyTabQuery ct f.Query kind) "is:issue" = true)
        ∧ hasTypeQualifier ct (applyTabQuery ct f.Query kind) = true
        ∧ (∀ fetchIssues : SearchFn,
            fetchIssuesWithFallback ct fetchIssues (applyTabQuery ct f.Query kind)
              = ([applyTabQuery ct f.Query kind], fetchIssues (applyTabQuery ct f.Query kind)))
        ∧ (∀ (token : String) (fetchIssues : String → SearchFn), token ≠ "" →
            fetchCmd ct token fetchIssues f kind
              = ([applyTabQuery ct f.Query kind],
                  match fetchIssues token (applyTabQuery ct f.Query kind) with
                  | Result.ok items => Msg.fetchResult items none
                  | Result.err e => Msg.fetchResult [] (some e)))
        ∧ (∀ fetchIssues : String → SearchFn,
            fetchCmd ct "" fetchIssues f kind
              = ([], Msg.fetchResult [] (some "GITHUB_TOKEN is required"))) := by
  refine ⟨fun W m c h => ?_, Update_searches, fun f kind hk => ?_⟩
  · unfold Init at h
    cases hf : index m.filters m.filterIndex with
    | none => simp [hf] at h
    | some f =>
      cases ht : index tabs m.tabIndex with
      | none => simp [hf, ht] at h
      | some t =>
        simp [hf, ht] at h
        subst h
        intro p hp
        simp only [searchesOf, List.append_nil, List.mem_singleton] at hp
        subst hp
        exact tab_kind _ t ht
  · obtain ⟨hcontains, hq⟩ := tab_query_qualified ct f.Query kind hk
    have hone : ∀ fetchIssues : SearchFn,
        fetchIssuesWithFallback ct fetchIssues (applyTabQuery ct f.Query kind)
          = ([applyTabQuery ct f.Query kind], fetchIssues (applyTabQuery ct f.Query kind)) := by
      intro fetchIssues
      simp [fetchIssuesWithFallback, hq]
    refine ⟨hcontains, hq, hone, fun token fetchIssues htoken => ?_, fun fetchIssues => ?_⟩
    · unfold fetchCmd
      rw [if_neg htoken]
      simp only [hone]
      cases fetchIssues token (applyTabQuery ct f.Query kind) <;> rfl
    · simp [fetchCmd]

/-- A run of C21: the search of the start state, filter "Open" on the PR tab,
run with a token, sends the one query of the filter with " is:pr" appended. -/
theorem C21_list_search_is_single_witness :
    Init Widgets.simple startModel
        = some (Cmd.Batch (Cmd.fetchCmd ⟨"Open", "is:open archived:false involves:@me"⟩ "pr")
            (Cmd.widget 1))
    ∧ fetchCmd CaseTables.plain "ghp_0" (fun _ _ => Result.ok [sampleItem])
          ⟨"Open", "is:open archived:false involves:@me"⟩ "pr"
        = (["is:open archived:false involves:@me is:pr"], Msg.fetchResult [sampleItem] none) :=
  ⟨rfl,
   (((C21_list_search_is_single CaseTables.plain).2.2
      ⟨"Open", "is:open archived:false involves:@me"⟩ "pr" (Or.inl rfl)).2.2.2.1
      "ghp_0" (fun _ _ => Result.ok [sampleItem]) (by decide))⟩

end InboxTUI
